import Mathlib

/-!
Verification development for the PhyloWGS input parser
(parser/create_phylowgs_inputs.py).

The Python source is shallowly embedded: floating-point read-count
arithmetic is modelled over the rationals where the source only performs
field operations, and over the reals where the source takes geometric
means; NaN-masked numpy matrices become matrices of optional values;
Python assertions become Option-valued results (none = AssertionError).
-/

namespace PhyloWGS

/-- Truncation toward zero, as performed by the Python builtin int() on a
float: floor for non-negative arguments, ceiling for negative ones. -/
def pyInt (x : ℚ) : ℤ := if 0 ≤ x then ⌊x⌋ else ⌈x⌉

/-- Python 2 round(): round half away from zero.  The source always wraps
it as int(round(x)), which is exactly this integer. -/
def pyRound (x : ℚ) : ℤ := if 0 ≤ x then ⌊x + 1/2⌋ else ⌈x - 1/2⌉

/-- Truncation toward zero on the reals, for numpy astype(np.int). -/
noncomputable def pyIntR (x : ℝ) : ℤ := if 0 ≤ x then ⌊x⌋ else ⌈x⌉

/-! ## Caller adapters (VariantParser subclasses)

Only the record fields actually read by each adapter are modelled.
ReadCountsUnavailableError is modelled by an Option result: none means the
adapter raised, some means it returned the pair (ref_reads, total_reads). -/

/-- One Strelka VCF record, as seen by StrelkaParser._calc_read_counts:
the first ALT allele (None possible), the DP field of the tumor sample,
and the per-allele tier counts (getattr(data, str(alt) + "U")[0]). -/
structure StrelkaVariant where
  alt : Option String
  dp : ℤ
  tier_counts : String → ℤ

/-- StrelkaParser._calc_read_counts.  Note that a record with no ALT
allele yields (0, 0) rather than raising ReadCountsUnavailableError. -/
def StrelkaVariant.calc_read_counts (variant : StrelkaVariant) : Option (ℤ × ℤ) :=
  match variant.alt with
  | none =>
    let total_reads : ℤ := 0
    let variant_reads : ℤ := 0
    some (total_reads - variant_reads, total_reads)
  | some alt =>
    let total_reads := variant.dp
    let variant_reads := variant.tier_counts (alt ++ "U")
    some (total_reads - variant_reads, total_reads)

/-- One PCAWG-consensus VCF record, as seen by
PcawgConsensusParser._calc_read_counts: the optional INFO fields
t_alt_count and t_ref_count (none = field absent). -/
structure PcawgConsensusVariant where
  t_alt_count : Option ℤ
  t_ref_count : Option ℤ
deriving DecidableEq

/-- PcawgConsensusParser._calc_read_counts: raises (none) when either
INFO field is absent or when the total read count is zero. -/
def PcawgConsensusVariant.calc_read_counts (variant : PcawgConsensusVariant) : Option (ℤ × ℤ) :=
  match variant.t_alt_count, variant.t_ref_count with
  | some alt_reads, some ref_reads =>
    let total_reads := alt_reads + ref_reads
    if total_reads = 0 then none else some (ref_reads, total_reads)
  | _, _ => none

/-- VariantParser.list_variants, generic over the adapter: records whose
read counts are unavailable (calc_read_counts = none) are skipped, the
rest carry their (ref_reads, total_reads) pair. -/
def list_variants {α : Type} (calc_read_counts : α → Option (ℤ × ℤ))
    (variants : List α) : List (α × ℤ × ℤ) :=
  variants.filterMap (fun variant =>
    (calc_read_counts variant).map (fun rc => (variant, rc.1, rc.2)))

/-! ## Caller-type dispatch (parse_variants) -/

/-- The closed set of supported caller types. -/
inductive CallerType
  | sanger
  | mutect_pcawg
  | mutect_smchet
  | mutect_tcga
  | muse
  | dkfz
  | strelka
  | vardict
  | pcawg_consensus
deriving DecidableEq

/-- The caller-type dispatch chain of parse_variants; an unrecognised
keyword raises Exception (the misspelling of the source message is
preserved). -/
def dispatch_vcf_type (vcf_type : String) : Except String CallerType :=
  if vcf_type == "sanger" then .ok .sanger
  else if vcf_type == "mutect_pcawg" then .ok .mutect_pcawg
  else if vcf_type == "mutect_smchet" then .ok .mutect_smchet
  else if vcf_type == "mutect_tcga" then .ok .mutect_tcga
  else if vcf_type == "muse" then .ok .muse
  else if vcf_type == "dkfz" then .ok .dkfz
  else if vcf_type == "strelka" then .ok .strelka
  else if vcf_type == "vardict" then .ok .vardict
  else if vcf_type == "pcawg_consensus" then .ok .pcawg_consensus
  else .error ("Unknowon variant type: " ++ vcf_type)

/-- The dispatch portion of parse_variants: the files are examined in
order and the first unknown caller-type keyword aborts the whole run
(the raised Exception propagates out of main). -/
def parse_variants_vcf_types : List String → Except String (List CallerType)
  | [] => .ok []
  | vcf_type :: rest =>
    match dispatch_vcf_type vcf_type with
    | .error e => .error e
    | .ok caller =>
      match parse_variants_vcf_types rest with
      | .error e => .error e
      | .ok callers => .ok (caller :: callers)

/-! ## Read-count imputation (impute_missing_total_reads / _ref_reads)

A variants-by-samples matrix with missing cells (numpy NaN masked via
ma.fix_invalid) is modelled as a function into Option ℝ.  The scipy
masked gmean computes exp of the arithmetic mean of the logs of the
unmasked entries.  np.dot of the masked matrix with the diagonal matrix
diag(1/sample_means) scales each cell by the diagonal entry of its
column and propagates the mask of its first operand unchanged, which is
what normalized_to_sample expresses cell by cell. -/

/-- scipy.stats.mstats.gmean over the unmasked entries of one axis
slice: exp of the mean of the logs. -/
noncomputable def gmean (values : List ℝ) : ℝ :=
  Real.exp ((values.map Real.log).sum / values.length)

/-- The unmasked entries of column j, in row order. -/
def column_entries {v s : ℕ} (M : Fin v → Fin s → Option ℝ) (j : Fin s) : List ℝ :=
  (List.ofFn (fun i => M i j)).filterMap id

/-- The unmasked entries of row i, in column order. -/
def row_entries {v s : ℕ} (M : Fin v → Fin s → Option ℝ) (i : Fin v) : List ℝ :=
  (List.ofFn (fun j => M i j)).filterMap id

/-- gmean(masked_total_reads, axis=0): geometric mean of each sample
column over its unmasked variants. -/
noncomputable def sample_means {v s : ℕ} (M : Fin v → Fin s → Option ℝ) (j : Fin s) : ℝ :=
  gmean (column_entries M j)

/-- np.dot(masked_total_reads, np.diag(1./sample_means)): every cell is
scaled by 1/(its sample geometric mean); masked cells stay masked. -/
noncomputable def normalized_to_sample {v s : ℕ} (M : Fin v → Fin s → Option ℝ) :
    Fin v → Fin s → Option ℝ :=
  fun i j => (M i j).map (fun t => t * (1 / sample_means M j))

/-- gmean(normalized_to_sample, axis=1): geometric mean of each variant
row of depth enrichments over its unmasked samples. -/
noncomputable def variant_mean_reads {v s : ℕ} (M : Fin v → Fin s → Option ℝ) (i : Fin v) : ℝ :=
  gmean (row_entries (normalized_to_sample M) i)

/-- np.dot(variant_mean_reads, sample_means) as an outer product: the
candidate imputed count for every cell. -/
noncomputable def imputed_counts {v s : ℕ} (M : Fin v → Fin s → Option ℝ)
    (i : Fin v) (j : Fin s) : ℝ :=
  variant_mean_reads M i * sample_means M j

/-- impute_missing_total_reads: missing cells receive their imputed
count scaled by the missing-variant confidence, then the whole matrix is
floored to integers (np.floor followed by astype). -/
noncomputable def impute_missing_total_reads {v s : ℕ} (M : Fin v → Fin s → Option ℝ)
    (missing_variant_confidence : ℝ) : Fin v → Fin s → ℤ :=
  fun i j =>
    match M i j with
    | some t => ⌊t⌋
    | none => ⌊imputed_counts M i j * missing_variant_confidence⌋

/-- impute_missing_ref_reads: missing ref cells receive the
already-imputed (integer) total count of the same cell; the whole matrix
is then cast with astype(np.int), which truncates toward zero. -/
noncomputable def impute_missing_ref_reads {v s : ℕ} (R : Fin v → Fin s → Option ℝ)
    (total_reads : Fin v → Fin s → ℤ) : Fin v → Fin s → ℤ :=
  fun i j =>
    match R i j with
    | some r => pyIntR r
    | none => total_reads i j

/-! ## CNV regions and the CNV formatter -/

/-- One copy-number region record as produced by CnvParser.parse:
integer start/end/major_cn/minor_cn and a float cellular prevalence. -/
structure CnvRegion where
  start : ℤ
  end_ : ℤ
  major_cn : ℤ
  minor_cn : ℤ
  cellular_prevalence : ℚ
deriving DecidableEq

/-- VariantAndCnvGroup._is_region_normal_cn. -/
def is_region_normal_cn (region : CnvRegion) : Bool :=
  region.major_cn == 1 && region.minor_cn == 1

/-- One comparison step of find_cellularity. -/
def prev_max_step (max_cellular_prev : ℚ) (cnr : CnvRegion) : ℚ :=
  if cnr.cellular_prevalence > max_cellular_prev then cnr.cellular_prevalence
  else max_cellular_prev

/-- find_cellularity: the maximum cellular prevalence over every region
of every chromosome, starting from 0. -/
def find_cellularity (cnvs : List (String × List CnvRegion)) : ℚ :=
  cnvs.foldl (fun acc chrom_regions => chrom_regions.2.foldl prev_max_step acc) 0

/-- The fields of a formatted variant dict consulted by
CnvFormatter._find_overlapping_variants. -/
structure SsmVariant where
  ssm_id : String
  chrom : String
  pos : ℤ
deriving DecidableEq

/-- One formatted CNV dict, as built by CnvFormatter._format_cnvs and
mutated by the merge pass (cnv_id is attached during the merge). -/
structure FormattedCnv where
  cnv_id : String := ""
  chrom : String
  start : ℤ
  end_ : ℤ
  major_cn : ℤ
  minor_cn : ℤ
  cellular_prevalence : ℚ
  ref_reads : ℤ
  total_reads : ℤ
  overlapping_variants : List (String × String × String)
deriving DecidableEq, Inhabited

instance : IsTotal FormattedCnv
    (fun a b => a.cellular_prevalence ≤ b.cellular_prevalence) :=
  ⟨fun a b => le_total _ _⟩

instance : IsTrans FormattedCnv
    (fun a b => a.cellular_prevalence ≤ b.cellular_prevalence) :=
  ⟨fun a b c h1 h2 => le_trans h1 h2⟩

/-- The configuration of CnvFormatter. -/
structure CnvFormatter where
  cnv_confidence : ℚ
  cellularity : ℚ
  read_depth : ℚ
  read_length : ℚ
deriving DecidableEq

namespace CnvFormatter

/-- CnvFormatter._max_reads. -/
def max_reads (self : CnvFormatter) : ℚ := 1000000 * self.read_depth

/-- CnvFormatter._calc_ref_reads: vaf = P/2, ref = int((1 - vaf) * total). -/
def calc_ref_reads (cellular_prev : ℚ) (total_reads : ℤ) : ℤ :=
  let vaf := cellular_prev / 2
  pyInt ((1 - vaf) * (total_reads : ℚ))

/-- CnvFormatter._calc_total_reads, translated literally: the copy-number
delta model with the P = 1.0 guard, the no-net-change rescaling, and the
cap at 1e6 * read_depth, finished by int(round(...)). -/
def calc_total_reads (self : CnvFormatter) (cellular_prev : ℚ)
    (locus_start locus_end : ℤ) (new_cn : ℤ) : ℤ :=
  let no_net_change := new_cn == 2
  let delta_cn : ℚ := if new_cn == 2 then 1 else ((new_cn : ℚ) - 2)
  let region_length : ℚ := ((locus_end - locus_start + 1 : ℤ) : ℚ)
  let fn := (self.read_depth * region_length) / self.read_length
  let P : ℚ := if cellular_prev == 1 then 999/1000 else cellular_prev
  let d := (delta_cn ^ 2 / 4) * (fn * P * (2 - P)) / (1 + (delta_cn * P) / 2)
  let d := if no_net_change then d * (self.read_length / 1000) else d
  pyRound (min d self.max_reads)

/-- CnvFormatter._find_overlapping_variants. -/
def find_overlapping_variants (chrom : String) (cnv : CnvRegion)
    (variants : List SsmVariant) : List String :=
  (variants.filter (fun variant =>
    chrom.toLower == variant.chrom.toLower &&
      (decide (cnv.start ≤ variant.pos) && decide (variant.pos ≤ cnv.end_)))).map
    (fun variant => variant.ssm_id)

/-- CnvFormatter._format_overlapping_variants. -/
def format_overlapping_variants (variants : List String) (maj_cn min_cn : ℤ) :
    List (String × String × String) :=
  variants.map (fun ssm_id => (ssm_id, toString min_cn, toString maj_cn))

/-- CnvFormatter._format_cnvs: one formatted record per region of every
chromosome, in dictionary order. -/
def format_cnvs (self : CnvFormatter) (cnvs : List (String × List CnvRegion))
    (variants : List SsmVariant) : List FormattedCnv :=
  cnvs.flatMap (fun chrom_cnvs =>
    chrom_cnvs.2.map (fun cnv =>
      let total_reads := self.calc_total_reads cnv.cellular_prevalence cnv.start cnv.end_
        (cnv.major_cn + cnv.minor_cn)
      { chrom := chrom_cnvs.1
        start := cnv.start
        end_ := cnv.end_
        major_cn := cnv.major_cn
        minor_cn := cnv.minor_cn
        cellular_prevalence := cnv.cellular_prevalence
        ref_reads := calc_ref_reads cnv.cellular_prevalence total_reads
        total_reads := total_reads
        overlapping_variants := format_overlapping_variants
          (find_overlapping_variants chrom_cnvs.1 cnv variants) cnv.major_cn cnv.minor_cn }))

/-- CnvFormatter._merge_variants: the variants of cnv2 whose name is not
already among the names of cnv1 are appended to the list of cnv1 (the
name snapshot is taken once, before the loop). -/
def merge_variants (cnv1 cnv2 : FormattedCnv) : List (String × String × String) :=
  let cnv1_variant_names := cnv1.overlapping_variants.map (fun v => v.1)
  cnv1.overlapping_variants ++
    cnv2.overlapping_variants.filter (fun variant => !(cnv1_variant_names.contains variant.1))

/-- The merge branch of format_and_merge_cnvs: total reads are summed,
ref reads recomputed from the combined total at the prevalence of the
accumulated region, and the overlapping-variant lists unioned. -/
def merge_cnv_into (last current : FormattedCnv) : FormattedCnv :=
  let total := current.total_reads + last.total_reads
  { last with
      total_reads := total
      ref_reads := calc_ref_reads last.cellular_prevalence total
      overlapping_variants := merge_variants last current }

/-- The accumulator loop of format_and_merge_cnvs, written as a fold:
last is merged[-1], acc the (reversed) earlier part of merged, counter
the next cnv id number. -/
def merge_loop (cellularity : ℚ) : ℕ → FormattedCnv → List FormattedCnv →
    List FormattedCnv → List FormattedCnv
  | _, last, acc, [] => (last :: acc).reverse
  | counter, last, acc, current :: rest =>
    if current.cellular_prevalence = last.cellular_prevalence ∧
        last.cellular_prevalence = cellularity then
      merge_loop cellularity counter (merge_cnv_into last current) acc rest
    else
      merge_loop cellularity (counter + 1)
        { current with cnv_id := "c" ++ toString counter } (last :: acc) rest

/-- The final scaling of format_and_merge_cnvs: ref and total reads are
multiplied by the CNV confidence and rounded. -/
def scale_cnv (self : CnvFormatter) (cnv : FormattedCnv) : FormattedCnv :=
  { cnv with
      ref_reads := pyRound ((cnv.ref_reads : ℚ) * self.cnv_confidence)
      total_reads := pyRound ((cnv.total_reads : ℚ) * self.cnv_confidence) }

/-- The formatted regions sorted ascending by cellular prevalence (the
Python sort is stable, and a stable sort is extensionally unique, so
insertionSort reproduces it). -/
def sorted_formatted (self : CnvFormatter) (cnvs : List (String × List CnvRegion))
    (variants : List SsmVariant) : List FormattedCnv :=
  List.insertionSort (fun a b => a.cellular_prevalence ≤ b.cellular_prevalence)
    (self.format_cnvs cnvs variants)

/-- format_and_merge_cnvs before its final confidence scaling: format,
sort ascending by cellular prevalence, then run the merge loop seeded
with the first region as c0. -/
def merged_cnvs (self : CnvFormatter) (cnvs : List (String × List CnvRegion))
    (variants : List SsmVariant) : List FormattedCnv :=
  match self.sorted_formatted cnvs variants with
  | [] => []
  | first :: rest =>
    merge_loop (find_cellularity cnvs) 1 { first with cnv_id := "c0" } [] rest

/-- The sub-maximal-prevalence part of the sorted formatted regions. -/
def subclonal_formatted (self : CnvFormatter) (cnvs : List (String × List CnvRegion))
    (variants : List SsmVariant) : List FormattedCnv :=
  (self.sorted_formatted cnvs variants).filter
    (fun f => !(decide (f.cellular_prevalence = find_cellularity cnvs)))

/-- The maximal-prevalence (clonal) part of the sorted formatted regions. -/
def clonal_formatted (self : CnvFormatter) (cnvs : List (String × List CnvRegion))
    (variants : List SsmVariant) : List FormattedCnv :=
  (self.sorted_formatted cnvs variants).filter
    (fun f => decide (f.cellular_prevalence = find_cellularity cnvs))

/-- CnvFormatter.format_and_merge_cnvs. -/
def format_and_merge_cnvs (self : CnvFormatter) (cnvs : List (String × List CnvRegion))
    (variants : List SsmVariant) : List FormattedCnv :=
  (self.merged_cnvs cnvs variants).map self.scale_cnv

end CnvFormatter

/-- Erase the cnv_id of a formatted region (the merge pass is described
up to id assignment). -/
def strip_cnv_id (f : FormattedCnv) : FormattedCnv := { f with cnv_id := "" }

/-- The cumulative merge of a nonempty list of formatted regions into
its first element. -/
def merge_fold : List FormattedCnv → FormattedCnv
  | [] => default
  | h :: t => t.foldl CnvFormatter.merge_cnv_into h

/-! ## Subclonal-CNV region filtering (VariantAndCnvGroup) -/

/-- The while-loop of _filter_multiple_abnormal_cn_regions over one
chromosome, fuel-indexed (fuel at least the list length suffices): a
region at clonal prevalence is appended and the cursor advances by one;
otherwise the run of regions sharing its start is gathered, the assert
that they share its end is checked (none = AssertionError), and the
gathered block contributes its unique abnormal region, or nothing. -/
def walk_regions_aux (cellularity : ℚ) : ℕ → List CnvRegion → Option (List CnvRegion)
  | _, [] => some []
  | 0, _ :: _ => none
  | fuel + 1, region :: rest =>
    if region.cellular_prevalence = cellularity then
      (walk_regions_aux cellularity fuel rest).map (fun good => region :: good)
    else
      let regions_at_same_coords := region :: rest.takeWhile (fun r => r.start == region.start)
      let remainder := rest.dropWhile (fun r => r.start == region.start)
      if regions_at_same_coords.all (fun r => r.end_ == region.end_) then
        let abnormal_regions := regions_at_same_coords.filter (fun r => !is_region_normal_cn r)
        (walk_regions_aux cellularity fuel remainder).map (fun good =>
          (if abnormal_regions.length == 1 then abnormal_regions else []) ++ good)
      else none

/-- The per-chromosome walk with enough fuel for its argument. -/
def walk_regions (cellularity : ℚ) (regions : List CnvRegion) : Option (List CnvRegion) :=
  walk_regions_aux cellularity regions.length regions

/-- VariantAndCnvGroup._filter_multiple_abnormal_cn_regions over the
chromosome map. -/
def filter_multiple_abnormal_cn_regions (cellularity : ℚ) :
    List (String × List CnvRegion) → Option (List (String × List CnvRegion))
  | [] => some []
  | chrom_regions :: rest =>
    match walk_regions cellularity chrom_regions.2,
        filter_multiple_abnormal_cn_regions cellularity rest with
    | some good, some rest_good => some ((chrom_regions.1, good) :: rest_good)
    | _, _ => none

/-- One variant identity (the VariantId named tuple). -/
structure VariantId where
  CHROM : String
  POS : ℤ
deriving DecidableEq, Inhabited

/-- Whether a region contains a position: region[start] <= pos <= region[end]. -/
def region_contains (region : CnvRegion) (pos : ℤ) : Bool :=
  decide (region.start ≤ pos) && decide (pos ≤ region.end_)

/-- Chromosome lookup in a region map, with the defaultdict(list)
behaviour of an empty list for an absent chromosome. -/
def lookup_regions (regions : List (String × List CnvRegion)) (chrom : String) :
    List CnvRegion :=
  ((regions.find? (fun p => p.1 == chrom)).map (fun p => p.2)).getD []

/-- VariantAndCnvGroup._filter_variants_outside_regions: keep exactly the
variants lying inside some region of their chromosome. -/
def filter_variants_outside_regions (regions : List (String × List CnvRegion))
    (variants : List VariantId) : List VariantId :=
  variants.filter (fun variant =>
    (lookup_regions regions variant.CHROM).any (fun region =>
      region_contains region variant.POS))

/-- VariantAndCnvGroup.exclude_variants_in_subclonal_cnvs: filter the
region map, then drop every variant outside all retained regions. -/
def exclude_variants_in_subclonal_cnvs (cn_regions : List (String × List CnvRegion))
    (variants : List VariantId) : Option (List VariantId) :=
  (filter_multiple_abnormal_cn_regions (find_cellularity cn_regions) cn_regions).map
    (fun good_regions => filter_variants_outside_regions good_regions variants)

/-! ## Subsampling (VariantAndCnvGroup.format_variants) -/

/-- variant_key, chromosome part: x sorts as 100, y as 101, otherwise
the numeric chromosome name itself (the good-chromosome filter upstream
only lets the names "1" .. "22" through). -/
def chrom_key (chrom : String) : ℤ :=
  if chrom == "x" then 100
  else if chrom == "y" then 101
  else (chrom.toInt?).getD 0

/-- variant_key: the (chromosome, position) Python sort key. -/
def variant_key (var : VariantId) : ℤ × ℤ := (chrom_key var.CHROM, var.POS)

/-- Lexicographic comparison of Python tuples. -/
def key_le (a b : ℤ × ℤ) : Prop := a.1 < b.1 ∨ (a.1 = b.1 ∧ a.2 ≤ b.2)

instance : DecidableRel key_le := fun a b => by
  unfold key_le
  infer_instance

/-- The sort order used on variants. -/
def variant_key_le (a b : VariantId) : Prop := key_le (variant_key a) (variant_key b)

instance : DecidableRel variant_key_le := fun a b => by
  unfold variant_key_le
  infer_instance

/-- get_elements_at_indices. -/
def get_elements_at_indices (L : List VariantId) (indices : List ℕ) : List VariantId :=
  indices.map (fun idx => L.getD idx default)

/-- One step of the priority-selection loop of format_variants: an index
moves into the subsample when the subsample is below the target size and
its variant identity is in the priority set, and into the remaining list
otherwise. -/
def select_step (variants : List VariantId) (priority_ssms : List (String × ℤ))
    (sample_size : ℕ) (acc : List ℕ × List ℕ) (variant_idx : ℕ) : List ℕ × List ℕ :=
  let variant := variants.getD variant_idx default
  if acc.1.length < sample_size ∧ (variant.CHROM, variant.POS) ∈ priority_ssms then
    (acc.1 ++ [variant_idx], acc.2)
  else
    (acc.1, acc.2 ++ [variant_idx])

/-- The priority-selection loop of format_variants over the shuffled
indices, in order. -/
def select_subsample (variants : List VariantId) (priority_ssms : List (String × ℤ))
    (sample_size : ℕ) (idxs : List ℕ) : List ℕ × List ℕ :=
  idxs.foldl (select_step variants priority_ssms sample_size) ([], [])

/-- The index sort of format_variants (Python list.sort with
key=variant_key; insertionSort is the same stable sort). -/
def sort_by_variant_key (variants : List VariantId) (idxs : List ℕ) : List ℕ :=
  List.insertionSort
    (fun i j => variant_key_le (variants.getD i default) (variants.getD j default)) idxs

/-- VariantAndCnvGroup.format_variants, to the point where both groups
have been selected and re-sorted (the random shuffle is an external
effect, so the shuffled index order is a parameter): priority variants
are taken while the subsample is short of sample_size, the subsample is
backfilled from the remaining shuffled indices, leftovers become the
nonsubsampled group, and both groups are sorted by variant_key. -/
def format_variants (variants : List VariantId) (shuffled_idxs : List ℕ)
    (sample_size : Option ℕ) (priority_ssms : List (String × ℤ)) :
    List VariantId × List VariantId :=
  let size := sample_size.getD shuffled_idxs.length
  let sel := select_subsample variants priority_ssms size shuffled_idxs
  let needed := size - sel.1.length
  let subsampled := sel.1 ++ sel.2.take needed
  let nonsubsampled := sel.2.drop needed
  (get_elements_at_indices variants (sort_by_variant_key variants subsampled),
   get_elements_at_indices variants (sort_by_variant_key variants nonsubsampled))

/-! ## Concrete instances used by witnesses and counterexamples -/

/-- A 2x2 total-reads matrix whose only missing cell is (1,1); every
observed cell is 1. -/
def imputeDemoTotals : Fin 2 → Fin 2 → Option ℝ :=
  fun i j => if i = 1 ∧ j = 1 then none else some 1

/-- A 1x1 total-reads matrix with the single observed value 1. -/
def imputeDemoOnes : Fin 1 → Fin 1 → Option ℝ := fun _ _ => some 1

/-- A 1x1 ref-reads matrix with the single observed value 3. -/
def imputeDemoRefs : Fin 1 → Fin 1 → Option ℝ := fun _ _ => some 3

/-- A 1x2 ref-reads matrix: cell (0,0) missing, cell (0,1) observed 3. -/
def refDemo : Fin 1 → Fin 2 → Option ℝ := fun _ j => if j = 0 then none else some 3

/-- A 1x2 integer total-reads matrix, constant 7. -/
def totalDemo : Fin 1 → Fin 2 → ℤ := fun _ _ => 7

/-- A Strelka record with no alternate allele (zero total reads). -/
def strelkaDemoRecord : StrelkaVariant := { alt := none, dp := 5, tier_counts := fun _ => 0 }

/-- A PCAWG-consensus record with an absent t_alt_count field. -/
def pcawgDemoAbsent : PcawgConsensusVariant := { t_alt_count := none, t_ref_count := some 5 }

/-- A PCAWG-consensus record with available, nonzero counts. -/
def pcawgDemoAvail : PcawgConsensusVariant := { t_alt_count := some 1, t_ref_count := some 2 }

/-- A PCAWG-consensus record whose counts are both zero. -/
def pcawgDemoZero : PcawgConsensusVariant := { t_alt_count := some 0, t_ref_count := some 0 }

/-- A sub-clonal abnormal region at coordinates 1..10. -/
def subclonalDemoSub : CnvRegion :=
  { start := 1, end_ := 10, major_cn := 2, minor_cn := 1, cellular_prevalence := 1/2 }

/-- A clonal normal region at the same coordinates 1..10. -/
def subclonalDemoClonal : CnvRegion :=
  { start := 1, end_ := 10, major_cn := 1, minor_cn := 1, cellular_prevalence := 1 }

/-! ## Helper lemmas -/

lemma pyInt_of_nonneg {x : ℚ} (h : 0 ≤ x) : pyInt x = ⌊x⌋ := if_pos h

lemma pyRound_of_nonneg {x : ℚ} (h : 0 ≤ x) : pyRound x = ⌊x + 1/2⌋ := if_pos h

lemma pyRound_nonneg {x : ℚ} (h : 0 ≤ x) : 0 ≤ pyRound x := by
  rw [pyRound_of_nonneg h]
  exact Int.le_floor.mpr (by push_cast; linarith)

lemma calc_total_reads_nonneg (self : CnvFormatter) (P : ℚ) (ls le ncn : ℤ)
    (hP0 : 0 ≤ P) (hP1 : P ≤ 1) (hls : ls ≤ le) (hcn : 0 ≤ ncn)
    (hdep : 0 ≤ self.read_depth) (hrl : 0 < self.read_length) :
    0 ≤ self.calc_total_reads P ls le ncn := by
  unfold CnvFormatter.calc_total_reads
  apply pyRound_nonneg
  have hmax : 0 ≤ self.max_reads := by
    unfold CnvFormatter.max_reads
    positivity
  have hlen : (0 : ℚ) ≤ ((le - ls + 1 : ℤ) : ℚ) := by
    have hls2 : (ls : ℚ) ≤ (le : ℚ) := by exact_mod_cast hls
    push_cast
    linarith
  have hfn : 0 ≤ (self.read_depth * ((le - ls + 1 : ℤ) : ℚ)) / self.read_length := by
    positivity
  set Pg : ℚ := if P == 1 then 999/1000 else P with hPg
  have hPg0 : 0 ≤ Pg := by
    rw [hPg]
    split
    · norm_num
    · exact hP0
  have hPg1 : Pg < 1 := by
    rw [hPg]
    split
    · norm_num
    · rename_i hne
      rcases lt_or_eq_of_le hP1 with h | h
      · exact h
      · simp [h] at hne
  set dc : ℚ := if ncn == 2 then 1 else ((ncn : ℚ) - 2) with hdc
  have hdc2 : -2 ≤ dc := by
    rw [hdc]
    split
    · norm_num
    · have : (0 : ℚ) ≤ (ncn : ℚ) := by exact_mod_cast hcn
      linarith
  have hden : 0 < 1 + dc * Pg / 2 := by
    nlinarith [hPg0, hPg1, hdc2]
  have hnum : 0 ≤ (dc ^ 2 / 4) *
      ((self.read_depth * ((le - ls + 1 : ℤ) : ℚ)) / self.read_length * Pg * (2 - Pg)) := by
    have h2P : 0 ≤ 2 - Pg := by linarith
    positivity
  have hd : 0 ≤ (dc ^ 2 / 4) *
      ((self.read_depth * ((le - ls + 1 : ℤ) : ℚ)) / self.read_length * Pg * (2 - Pg)) /
      (1 + dc * Pg / 2) :=
    div_nonneg hnum (le_of_lt hden)
  split
  · exact le_min (by positivity) hmax
  · exact le_min hd hmax

lemma calc_ref_reads_eq_floor (P : ℚ) (t : ℤ) (hP1 : P ≤ 1) (ht : 0 ≤ t) :
    CnvFormatter.calc_ref_reads P t = ⌊(1 - P/2) * (t : ℚ)⌋ := by
  unfold CnvFormatter.calc_ref_reads
  apply pyInt_of_nonneg
  have ht2 : (0 : ℚ) ≤ (t : ℚ) := by exact_mod_cast ht
  nlinarith

lemma calc_ref_reads_bounds_core (P : ℚ) (t : ℤ) (hP0 : 0 ≤ P) (hP1 : P ≤ 1) (ht : 0 ≤ t) :
    ⌊(t : ℚ) / 2⌋ ≤ CnvFormatter.calc_ref_reads P t ∧ CnvFormatter.calc_ref_reads P t ≤ t := by
  rw [calc_ref_reads_eq_floor P t hP1 ht]
  have ht2 : (0 : ℚ) ≤ (t : ℚ) := by exact_mod_cast ht
  constructor
  · apply Int.floor_le_floor
    nlinarith
  · have h := Int.floor_le_floor (α := ℚ) ((by nlinarith : (1 - P/2) * (t : ℚ) ≤ (t : ℚ)))
    simpa using h

lemma calc_ref_reads_nonneg (P : ℚ) (t : ℤ) (hP0 : 0 ≤ P) (hP1 : P ≤ 1) (ht : 0 ≤ t) :
    0 ≤ CnvFormatter.calc_ref_reads P t := by
  refine le_trans ?_ (calc_ref_reads_bounds_core P t hP0 hP1 ht).1
  have ht2 : (0 : ℚ) ≤ (t : ℚ) := by exact_mod_cast ht
  exact Int.le_floor.mpr (by push_cast; linarith)

/-! ## Claim C9 -/

/-- C9: for every CNV region with cellular prevalence P in [0,1] and the
total_reads computed for it by the depletion/amplification model, the
ref_reads computed before confidence scaling equal
floor((1 - P/2) * total_reads); the truncation performed by the Python
int() builtin coincides with the floor because the scaled total is
non-negative. -/
theorem cnv_ref_reads_floor_formula (self : CnvFormatter) (P : ℚ) (ls le ncn : ℤ)
    (hP0 : 0 ≤ P) (hP1 : P ≤ 1) (hls : ls ≤ le) (hcn : 0 ≤ ncn)
    (hdep : 0 ≤ self.read_depth) (hrl : 0 < self.read_length) :
    CnvFormatter.calc_ref_reads P (self.calc_total_reads P ls le ncn) =
      ⌊(1 - P/2) * ((self.calc_total_reads P ls le ncn : ℤ) : ℚ)⌋ :=
  calc_ref_reads_eq_floor P _ hP1 (calc_total_reads_nonneg self P ls le ncn hP0 hP1 hls hcn hdep hrl)

/-- Witness for C9 at a concrete region: prevalence 4/5, locus 1..1000,
major+minor copy number 4, read depth 50, read length 100. -/
theorem cnv_ref_reads_floor_formula_witness :
    (0 : ℚ) ≤ 4/5 ∧ (4/5 : ℚ) ≤ 1 ∧ (1 : ℤ) ≤ 1000 ∧ (0 : ℤ) ≤ 4 ∧
    (0 : ℚ) ≤ (CnvFormatter.mk (1/2) (4/5) 50 100).read_depth ∧
    (0 : ℚ) < (CnvFormatter.mk (1/2) (4/5) 50 100).read_length ∧
    CnvFormatter.calc_ref_reads (4/5)
        ((CnvFormatter.mk (1/2) (4/5) 50 100).calc_total_reads (4/5) 1 1000 4) =
      ⌊(1 - (4/5)/2) *
        (((CnvFormatter.mk (1/2) (4/5) 50 100).calc_total_reads (4/5) 1 1000 4 : ℤ) : ℚ)⌋ := by
  refine ⟨by norm_num, by norm_num, by norm_num, by norm_num, by norm_num, by norm_num, ?_⟩
  exact cnv_ref_reads_floor_formula _ _ _ _ _ (by norm_num) (by norm_num) (by norm_num)
    (by norm_num) (by norm_num) (by norm_num)

/-! ## Claim C10 -/

lemma merge_cnv_into_fields (last current : FormattedCnv) :
    (CnvFormatter.merge_cnv_into last current).cellular_prevalence = last.cellular_prevalence ∧
    (CnvFormatter.merge_cnv_into last current).total_reads =
      current.total_reads + last.total_reads ∧
    (CnvFormatter.merge_cnv_into last current).ref_reads =
      CnvFormatter.calc_ref_reads last.cellular_prevalence
        (current.total_reads + last.total_reads) := by
  simp [CnvFormatter.merge_cnv_into]

lemma format_cnvs_inv (self : CnvFormatter) (cnvs : List (String × List CnvRegion))
    (variants : List SsmVariant)
    (hreg : ∀ p ∈ cnvs, ∀ r ∈ p.2, 0 ≤ r.cellular_prevalence ∧ r.cellular_prevalence ≤ 1 ∧
      r.start ≤ r.end_ ∧ 0 ≤ r.major_cn + r.minor_cn)
    (hdep : 0 ≤ self.read_depth) (hrl : 0 < self.read_length) :
    ∀ f ∈ self.format_cnvs cnvs variants,
      0 ≤ f.cellular_prevalence ∧ f.cellular_prevalence ≤ 1 ∧
      0 ≤ f.total_reads ∧ f.ref_reads ≤ f.total_reads := by
  intro f hf
  rw [CnvFormatter.format_cnvs, List.mem_flatMap] at hf
  obtain ⟨p, hp, hf⟩ := hf
  rw [List.mem_map] at hf
  obtain ⟨r, hr, rfl⟩ := hf
  obtain ⟨h0, h1, hse, hcn⟩ := hreg p hp r hr
  have htot := calc_total_reads_nonneg self r.cellular_prevalence r.start r.end_
    (r.major_cn + r.minor_cn) h0 h1 hse hcn hdep hrl
  exact ⟨h0, h1, htot, (calc_ref_reads_bounds_core _ _ h0 h1 htot).2⟩

lemma merge_loop_inv (c : ℚ) (rest : List FormattedCnv) :
    ∀ (cnt : ℕ) (last : FormattedCnv) (acc : List FormattedCnv),
    (0 ≤ last.cellular_prevalence ∧ last.cellular_prevalence ≤ 1 ∧
      0 ≤ last.total_reads ∧ last.ref_reads ≤ last.total_reads) →
    (∀ f ∈ rest, 0 ≤ f.cellular_prevalence ∧ f.cellular_prevalence ≤ 1 ∧
      0 ≤ f.total_reads ∧ f.ref_reads ≤ f.total_reads) →
    (∀ f ∈ acc, f.ref_reads ≤ f.total_reads) →
    ∀ f ∈ CnvFormatter.merge_loop c cnt last acc rest, f.ref_reads ≤ f.total_reads := by
  induction rest with
  | nil =>
    intro cnt last acc hlast hrest hacc f hf
    rw [CnvFormatter.merge_loop, List.mem_reverse] at hf
    rcases List.mem_cons.mp hf with h | h
    · subst h
      exact hlast.2.2.2
    · exact hacc f h
  | cons current rest ih =>
    intro cnt last acc hlast hrest hacc f hf
    rw [CnvFormatter.merge_loop] at hf
    split at hf
    · refine ih cnt (CnvFormatter.merge_cnv_into last current) acc ?_
        (fun g hg => hrest g (List.mem_cons_of_mem _ hg)) hacc f hf
      obtain ⟨hprev, htot, href⟩ := merge_cnv_into_fields last current
      obtain ⟨hc0, hc1, hct, _⟩ := hrest current (List.mem_cons_self _ _)
      obtain ⟨hl0, hl1, hlt, _⟩ := hlast
      have htot2 : 0 ≤ current.total_reads + last.total_reads := by linarith
      refine ⟨by rw [hprev]; exact hl0, by rw [hprev]; exact hl1, by rw [htot]; exact htot2, ?_⟩
      rw [href, htot]
      exact (calc_ref_reads_bounds_core _ _ hl0 hl1 htot2).2
    · refine ih (cnt + 1) { current with cnv_id := "c" ++ toString cnt } (last :: acc) ?_
        (fun g hg => hrest g (List.mem_cons_of_mem _ hg)) ?_ f hf
      · exact hrest current (List.mem_cons_self _ _)
      · intro g hg
        rcases List.mem_cons.mp hg with h | h
        · subst h
          exact hlast.2.2.2
        · exact hacc g h

/-- C10: CnvFormatter._calc_ref_reads maps a prevalence P in [0,1] and a
non-negative integer total to an integer between floor(total/2) and
total, and consequently no region produced by the merge pass of
format_and_merge_cnvs (before confidence scaling) has ref_reads
exceeding total_reads. -/
theorem calc_ref_reads_range_and_merge :
    (∀ (P : ℚ) (t : ℕ), 0 ≤ P → P ≤ 1 →
      ⌊((t : ℤ) : ℚ) / 2⌋ ≤ CnvFormatter.calc_ref_reads P (t : ℤ) ∧
        CnvFormatter.calc_ref_reads P (t : ℤ) ≤ (t : ℤ)) ∧
    (∀ (self : CnvFormatter) (cnvs : List (String × List CnvRegion))
        (variants : List SsmVariant),
      (∀ p ∈ cnvs, ∀ r ∈ p.2, 0 ≤ r.cellular_prevalence ∧ r.cellular_prevalence ≤ 1 ∧
        r.start ≤ r.end_ ∧ 0 ≤ r.major_cn + r.minor_cn) →
      0 ≤ self.read_depth → 0 < self.read_length →
      ∀ f ∈ self.merged_cnvs cnvs variants, f.ref_reads ≤ f.total_reads) := by
  constructor
  · intro P t hP0 hP1
    exact calc_ref_reads_bounds_core P (t : ℤ) hP0 hP1 (by positivity)
  · intro self cnvs variants hreg hdep hrl f hf
    have hfmt := format_cnvs_inv self cnvs variants hreg hdep hrl
    rw [CnvFormatter.merged_cnvs] at hf
    have hperm : (self.sorted_formatted cnvs variants).Perm (self.format_cnvs cnvs variants) := by
      rw [CnvFormatter.sorted_formatted]
      exact List.perm_insertionSort _ _
    have hsorted_mem : ∀ g ∈ self.sorted_formatted cnvs variants,
        0 ≤ g.cellular_prevalence ∧ g.cellular_prevalence ≤ 1 ∧
        0 ≤ g.total_reads ∧ g.ref_reads ≤ g.total_reads := by
      intro g hg
      exact hfmt g (hperm.mem_iff.mp hg)
    revert hf
    split
    · intro hf
      exact absurd hf (List.not_mem_nil f)
    · rename_i first rest heq
      intro hf
      have hfirst := hsorted_mem first (by rw [heq]; exact List.mem_cons_self _ _)
      refine merge_loop_inv (find_cellularity cnvs) rest 1 { first with cnv_id := "c0" } []
        ?_ ?_ ?_ f hf
      · exact hfirst
      · intro g hg
        exact hsorted_mem g (by rw [heq]; exact List.mem_cons_of_mem _ hg)
      · intro g hg
        exact absurd hg (List.not_mem_nil g)

/-- Witness for C10: both parts applied at concrete inputs (prevalence
9/10 with total 7, and a one-region chromosome map). -/
theorem calc_ref_reads_range_and_merge_witness :
    ((0 : ℚ) ≤ 9/10 ∧ (9/10 : ℚ) ≤ 1 ∧
      ⌊(((7 : ℕ) : ℤ) : ℚ) / 2⌋ ≤ CnvFormatter.calc_ref_reads (9/10) ((7 : ℕ) : ℤ) ∧
      CnvFormatter.calc_ref_reads (9/10) ((7 : ℕ) : ℤ) ≤ ((7 : ℕ) : ℤ)) ∧
    ((∀ p ∈ [("1", [CnvRegion.mk 1 1000 2 1 1])], ∀ r ∈ p.2,
        0 ≤ r.cellular_prevalence ∧ r.cellular_prevalence ≤ 1 ∧
        r.start ≤ r.end_ ∧ 0 ≤ r.major_cn + r.minor_cn) ∧
      (0 : ℚ) ≤ (CnvFormatter.mk (1/2) 1 50 100).read_depth ∧
      (0 : ℚ) < (CnvFormatter.mk (1/2) 1 50 100).read_length ∧
      ∀ f ∈ (CnvFormatter.mk (1/2) 1 50 100).merged_cnvs
          [("1", [CnvRegion.mk 1 1000 2 1 1])] [],
        f.ref_reads ≤ f.total_reads) := by
  have hreg : ∀ p ∈ [("1", [CnvRegion.mk 1 1000 2 1 1])], ∀ r ∈ p.2,
      0 ≤ r.cellular_prevalence ∧ r.cellular_prevalence ≤ 1 ∧
      r.start ≤ r.end_ ∧ 0 ≤ r.major_cn + r.minor_cn := by
    intro p hp r hr
    rw [List.mem_singleton] at hp
    subst hp
    rw [List.mem_singleton] at hr
    subst hr
    norm_num
  refine ⟨⟨by norm_num, by norm_num,
      calc_ref_reads_range_and_merge.1 (9/10) 7 (by norm_num) (by norm_num)⟩,
    hreg, by norm_num, by norm_num, ?_⟩
  exact calc_ref_reads_range_and_merge.2 (CnvFormatter.mk (1/2) 1 50 100)
    [("1", [CnvRegion.mk 1 1000 2 1 1])] [] hreg (by norm_num) (by norm_num)

/-! ## Claims C5, C4, C1: read-count imputation -/

lemma pyIntR_intCast (n : ℤ) : pyIntR (n : ℝ) = n := by
  unfold pyIntR
  split
  · exact Int.floor_intCast n
  · exact Int.ceil_intCast n

/-- C5: impute_missing_ref_reads writes into every missing ref cell
exactly the already-imputed total-reads value of the same cell, and
leaves every observed (integer-valued) ref cell unchanged. -/
theorem impute_missing_ref_reads_spec {v s : ℕ} (R : Fin v → Fin s → Option ℝ)
    (total_reads : Fin v → Fin s → ℤ) (i : Fin v) (j : Fin s) :
    (R i j = none → impute_missing_ref_reads R total_reads i j = total_reads i j) ∧
    (∀ n : ℤ, R i j = some (n : ℝ) → impute_missing_ref_reads R total_reads i j = n) := by
  constructor
  · intro h
    simp [impute_missing_ref_reads, h]
  · intro n h
    simp [impute_missing_ref_reads, h, pyIntR_intCast]

/-- Witness for C5: a missing ref cell receives the total of its cell, an
observed ref cell of value 3 stays 3. -/
theorem impute_missing_ref_reads_spec_witness :
    refDemo 0 0 = none ∧
    impute_missing_ref_reads refDemo totalDemo 0 0 = totalDemo 0 0 ∧
    refDemo 0 1 = some ((3 : ℤ) : ℝ) ∧
    impute_missing_ref_reads refDemo totalDemo 0 1 = 3 := by
  have h0 : refDemo 0 0 = none := by simp [refDemo]
  have h1 : refDemo 0 1 = some ((3 : ℤ) : ℝ) := by
    simp [refDemo]
  exact ⟨h0, (impute_missing_ref_reads_spec refDemo totalDemo 0 0).1 h0, h1,
    (impute_missing_ref_reads_spec refDemo totalDemo 0 1).2 3 h1⟩

/-- C4: in impute_missing_total_reads, every missing cell is assigned the
product of the geometric-mean depth enrichment of its variant and the
geometric-mean read depth of its sample, scaled by the confidence factor
in [0,1] and floored; every observed cell keeps its observed value,
floored to an integer. -/
theorem impute_missing_total_reads_formula {v s : ℕ} (M : Fin v → Fin s → Option ℝ)
    (conf : ℝ) (i : Fin v) (j : Fin s) (h0 : 0 ≤ conf) (h1 : conf ≤ 1) :
    (M i j = none → impute_missing_total_reads M conf i j =
      ⌊variant_mean_reads M i * sample_means M j * conf⌋) ∧
    (∀ t : ℝ, M i j = some t → impute_missing_total_reads M conf i j = ⌊t⌋) := by
  constructor
  · intro h
    simp [impute_missing_total_reads, h, imputed_counts]
  · intro t h
    simp [impute_missing_total_reads, h]

/-- Witness for C4 on the 2x2 demo matrix with confidence 1: the missing
cell (1,1) receives the floored enrichment product, the observed cell
(0,0) is floored in place. -/
theorem impute_missing_total_reads_formula_witness :
    (0 : ℝ) ≤ 1 ∧ (1 : ℝ) ≤ 1 ∧
    imputeDemoTotals 1 1 = none ∧
    impute_missing_total_reads imputeDemoTotals 1 1 1 =
      ⌊variant_mean_reads imputeDemoTotals 1 * sample_means imputeDemoTotals 1 * 1⌋ ∧
    imputeDemoTotals 0 0 = some 1 ∧
    impute_missing_total_reads imputeDemoTotals 1 0 0 = ⌊(1 : ℝ)⌋ := by
  have hnone : imputeDemoTotals 1 1 = none := by simp [imputeDemoTotals]
  have hsome : imputeDemoTotals 0 0 = some 1 := by simp [imputeDemoTotals]
  exact ⟨le_of_lt one_pos, le_refl 1, hnone,
    (impute_missing_total_reads_formula imputeDemoTotals 1 1 1 (le_of_lt one_pos)
      (le_refl 1)).1 hnone,
    hsome,
    (impute_missing_total_reads_formula imputeDemoTotals 1 0 0 (le_of_lt one_pos)
      (le_refl 1)).2 1 hsome⟩

lemma gmean_all_ones {l : List ℝ} (h : ∀ x ∈ l, x = 1) : gmean l = 1 := by
  have hmap : l.map Real.log = l.map (fun _ => 0) := by
    apply List.map_congr_left
    intro x hx
    rw [h x hx, Real.log_one]
  rw [gmean, hmap]
  simp

/-- Counterexample to C1 as stated: on the 2x2 demo matrix (all observed
cells 1, cell (1,1) missing) with missing-variant confidence 0 (a value
inside the allowed range [0,1]), imputation completes (all masked
geometric means are strictly positive, so the source assertions hold),
yet the returned total_reads matrix has a zero cell. -/
theorem impute_total_zero_cell :
    0 < sample_means imputeDemoTotals 0 ∧ 0 < sample_means imputeDemoTotals 1 ∧
    0 < variant_mean_reads imputeDemoTotals 0 ∧ 0 < variant_mean_reads imputeDemoTotals 1 ∧
    ((0 : ℝ) ≤ 0 ∧ (0 : ℝ) ≤ 1) ∧
    impute_missing_total_reads imputeDemoTotals 0 1 1 = 0 := by
  have hsm : ∀ j : Fin 2, sample_means imputeDemoTotals j = 1 := by
    intro j
    apply gmean_all_ones
    intro x hx
    fin_cases j <;>
      simpa [column_entries, imputeDemoTotals, List.ofFn_succ] using hx
  have hvm : ∀ i : Fin 2, variant_mean_reads imputeDemoTotals i = 1 := by
    intro i
    apply gmean_all_ones
    intro x hx
    fin_cases i <;>
      simpa [row_entries, normalized_to_sample, imputeDemoTotals, List.ofFn_succ, hsm] using hx
  refine ⟨by rw [hsm]; norm_num, by rw [hsm]; norm_num,
    by rw [hvm]; norm_num, by rw [hvm]; norm_num, ⟨le_refl 0, by norm_num⟩, ?_⟩
  have hnone : imputeDemoTotals 1 1 = none := by simp [imputeDemoTotals]
  simp [impute_missing_total_reads, hnone]

/-- C1 (amended): when the assertions of impute_missing_total_reads hold
(all sample and variant geometric means strictly positive) and every
observed cell is a positive integer for totals and a non-negative
integer for refs, the returned total_reads matrix is everywhere a
non-negative integer -- strictly positive at every cell that was
observed, while an imputed cell can reach 0 once scaled by a small or
zero confidence factor -- and the returned ref_reads matrix is
everywhere non-negative. -/
theorem impute_pipeline_nonneg {v s : ℕ} (M R : Fin v → Fin s → Option ℝ) (conf : ℝ)
    (hconf0 : 0 ≤ conf) (hconf1 : conf ≤ 1)
    (hsm : ∀ j, 0 < sample_means M j)
    (hvm : ∀ i, 0 < variant_mean_reads M i)
    (hobs : ∀ i j t, M i j = some t → ∃ n : ℤ, 0 < n ∧ t = (n : ℝ))
    (href : ∀ i j r, R i j = some r → ∃ n : ℤ, 0 ≤ n ∧ r = (n : ℝ)) :
    ∀ (i : Fin v) (j : Fin s),
      0 ≤ impute_missing_total_reads M conf i j ∧
      (M i j ≠ none → 0 < impute_missing_total_reads M conf i j) ∧
      0 ≤ impute_missing_ref_reads R (impute_missing_total_reads M conf) i j := by
  intro i j
  have htotal : 0 ≤ impute_missing_total_reads M conf i j ∧
      (M i j ≠ none → 0 < impute_missing_total_reads M conf i j) := by
    rcases hM : M i j with _ | t
    · constructor
      · have himp : 0 ≤ imputed_counts M i j * conf :=
          mul_nonneg (le_of_lt (mul_pos (hvm i) (hsm j))) hconf0
        simp only [impute_missing_total_reads, hM]
        exact Int.le_floor.mpr (by exact_mod_cast himp)
      · intro hcontra
        exact absurd rfl hcontra
    · obtain ⟨n, hn, rfl⟩ := hobs i j t hM
      have : impute_missing_total_reads M conf i j = n := by
        simp [impute_missing_total_reads, hM]
      constructor
      · rw [this]
        exact le_of_lt hn
      · intro _
        rw [this]
        exact hn
  refine ⟨htotal.1, htotal.2, ?_⟩
  rcases hR : R i j with _ | r
  · simp only [impute_missing_ref_reads, hR]
    exact htotal.1
  · obtain ⟨n, hn, rfl⟩ := href i j r hR
    simp only [impute_missing_ref_reads, hR, pyIntR_intCast]
    exact hn

/-- Witness for C1 (amended) on the 1x1 matrices with observed total 1
and observed ref 3, confidence 1. -/
theorem impute_pipeline_nonneg_witness :
    0 < sample_means imputeDemoOnes 0 ∧
    0 < variant_mean_reads imputeDemoOnes 0 ∧
    0 ≤ impute_missing_total_reads imputeDemoOnes 1 0 0 ∧
    0 < impute_missing_total_reads imputeDemoOnes 1 0 0 ∧
    0 ≤ impute_missing_ref_reads imputeDemoRefs (impute_missing_total_reads imputeDemoOnes 1) 0 0 := by
  have hsm : ∀ j : Fin 1, sample_means imputeDemoOnes j = 1 := by
    intro j
    apply gmean_all_ones
    intro x hx
    fin_cases j <;>
      simpa [column_entries, imputeDemoOnes, List.ofFn_succ] using hx
  have hvm : ∀ i : Fin 1, variant_mean_reads imputeDemoOnes i = 1 := by
    intro i
    apply gmean_all_ones
    intro x hx
    fin_cases i <;>
      simpa [row_entries, normalized_to_sample, imputeDemoOnes, List.ofFn_succ, hsm] using hx
  have hobs : ∀ (i j : Fin 1) (t : ℝ), imputeDemoOnes i j = some t →
      ∃ n : ℤ, 0 < n ∧ t = (n : ℝ) := by
    intro i j t ht
    refine ⟨1, one_pos, ?_⟩
    simp [imputeDemoOnes] at ht
    simp [ht]
  have href : ∀ (i j : Fin 1) (r : ℝ), imputeDemoRefs i j = some r →
      ∃ n : ℤ, 0 ≤ n ∧ r = (n : ℝ) := by
    intro i j r hr
    refine ⟨3, by norm_num, ?_⟩
    simp [imputeDemoRefs] at hr
    simp [hr]
  have h := impute_pipeline_nonneg imputeDemoOnes imputeDemoRefs 1 (le_of_lt one_pos)
    (le_refl 1) (fun j => by rw [hsm]; norm_num) (fun i => by rw [hvm]; norm_num)
    hobs href 0 0
  exact ⟨by rw [hsm]; norm_num, by rw [hvm]; norm_num, h.1,
    h.2.1 (by simp [imputeDemoOnes]), h.2.2⟩

/-! ## Claim C7 -/

/-- Counterexample to C7 as stated: a Strelka record with no alternate
allele has zero total reads, yet StrelkaParser._calc_read_counts returns
(0, 0) instead of signalling unavailability, so list_variants keeps the
record with zero read counts rather than dropping it. -/
theorem strelka_zero_total_kept :
    strelkaDemoRecord.calc_read_counts = some (0, 0) ∧
    list_variants StrelkaVariant.calc_read_counts [strelkaDemoRecord] =
      [(strelkaDemoRecord, 0, 0)] := by
  constructor
  · rfl
  · rfl

/-- C7 (amended): a record whose adapter raises
ReadCountsUnavailableError is dropped from the sample (it never appears
in the list and the condition is not fatal), while any record with
available counts is kept; the PcawgConsensus adapter signals
unavailability exactly when a count field is absent or the total is
zero; the Strelka adapter, however, returns (0, 0) for a record with no
alternate allele instead of signalling unavailability. -/
theorem read_counts_unavailable_spec :
    (∀ (α : Type) (calc_rc : α → Option (ℤ × ℤ)) (records : List α) (v : α),
      calc_rc v = none → ∀ r t : ℤ, (v, r, t) ∉ list_variants calc_rc records) ∧
    (∀ (α : Type) (calc_rc : α → Option (ℤ × ℤ)) (records : List α) (v : α) (rc : ℤ × ℤ),
      v ∈ records → calc_rc v = some rc → (v, rc.1, rc.2) ∈ list_variants calc_rc records) ∧
    (∀ rec : PcawgConsensusVariant,
      rec.calc_read_counts = none ↔
        rec.t_alt_count = none ∨ rec.t_ref_count = none ∨
        ∃ a b : ℤ, rec.t_alt_count = some a ∧ rec.t_ref_count = some b ∧ a + b = 0) ∧
    (∀ rec : StrelkaVariant, rec.alt = none → rec.calc_read_counts = some (0, 0)) := by
  refine ⟨?_, ?_, ?_, ?_⟩
  · intro α calc_rc records v hnone r t hmem
    rw [list_variants, List.mem_filterMap] at hmem
    obtain ⟨a, _, ha⟩ := hmem
    simp only [Option.map_eq_some'] at ha
    obtain ⟨rc, hrc, heq⟩ := ha
    obtain ⟨rfl, -⟩ : a = v ∧ rc = (r, t) := by
      simpa using heq
    rw [hnone] at hrc
    exact Option.noConfusion hrc
  · intro α calc_rc records v rc hv hc
    rw [list_variants, List.mem_filterMap]
    refine ⟨v, hv, ?_⟩
    rw [hc]
    rfl
  · intro rec
    constructor
    · intro h
      rcases ha : rec.t_alt_count with _ | a
      · exact Or.inl rfl
      · rcases hb : rec.t_ref_count with _ | b
        · exact Or.inr (Or.inl rfl)
        · refine Or.inr (Or.inr ⟨a, b, rfl, rfl, ?_⟩)
          rw [PcawgConsensusVariant.calc_read_counts, ha, hb] at h
          by_contra hne
          simp [hne] at h
    · intro h
      rw [PcawgConsensusVariant.calc_read_counts]
      rcases h with h | h | ⟨a, b, ha, hb, hab⟩
      · rw [h]
      · rw [h]
        rcases rec.t_alt_count with _ | a
        · rfl
        · rfl
      · rw [ha, hb]
        simp [hab]
  · intro rec h
    rw [StrelkaVariant.calc_read_counts, h]
    rfl

/-- Witness for C7 (amended): the unavailability cases at concrete
records -- an absent-field PCAWG record is dropped, an available PCAWG
record is kept, the zero-total PCAWG record signals unavailability, and
the no-ALT Strelka record yields (0, 0). -/
theorem read_counts_unavailable_spec_witness :
    pcawgDemoAbsent.calc_read_counts = none ∧
    (pcawgDemoAbsent, (3 : ℤ), (4 : ℤ)) ∉
      list_variants PcawgConsensusVariant.calc_read_counts [pcawgDemoAbsent, pcawgDemoAvail] ∧
    pcawgDemoAvail ∈ [pcawgDemoAbsent, pcawgDemoAvail] ∧
    pcawgDemoAvail.calc_read_counts = some (2, 3) ∧
    (pcawgDemoAvail, (2 : ℤ), (3 : ℤ)) ∈
      list_variants PcawgConsensusVariant.calc_read_counts [pcawgDemoAbsent, pcawgDemoAvail] ∧
    (pcawgDemoZero.calc_read_counts = none ↔
      pcawgDemoZero.t_alt_count = none ∨ pcawgDemoZero.t_ref_count = none ∨
      ∃ a b : ℤ, pcawgDemoZero.t_alt_count = some a ∧ pcawgDemoZero.t_ref_count = some b ∧
        a + b = 0) ∧
    strelkaDemoRecord.alt = none ∧
    strelkaDemoRecord.calc_read_counts = some (0, 0) := by
  have habs : pcawgDemoAbsent.calc_read_counts = none := rfl
  have havail : pcawgDemoAvail.calc_read_counts = some (2, 3) := by
    rw [PcawgConsensusVariant.calc_read_counts]
    norm_num [pcawgDemoAvail]
  refine ⟨habs,
    read_counts_unavailable_spec.1 PcawgConsensusVariant PcawgConsensusVariant.calc_read_counts
      [pcawgDemoAbsent, pcawgDemoAvail] pcawgDemoAbsent habs 3 4,
    by simp,
    havail,
    ?_,
    read_counts_unavailable_spec.2.2.1 pcawgDemoZero,
    rfl,
    read_counts_unavailable_spec.2.2.2 strelkaDemoRecord rfl⟩
  exact read_counts_unavailable_spec.2.1 PcawgConsensusVariant
    PcawgConsensusVariant.calc_read_counts [pcawgDemoAbsent, pcawgDemoAvail] pcawgDemoAvail
    (2, 3) (by simp) havail

/-! ## Claim C8 -/

lemma dispatch_vcf_type_unknown (t : String)
    (hunk : t ∉ ["sanger", "mutect_pcawg", "mutect_smchet", "mutect_tcga", "muse", "dkfz",
      "strelka", "vardict", "pcawg_consensus"]) :
    dispatch_vcf_type t = .error ("Unknowon variant type: " ++ t) := by
  simp only [List.mem_cons, List.not_mem_nil, or_false, not_or] at hunk
  obtain ⟨h1, h2, h3, h4, h5, h6, h7, h8, h9⟩ := hunk
  rw [dispatch_vcf_type]
  simp [h1, h2, h3, h4, h5, h6, h7, h8, h9]

/-- C8: if the list of caller-type keywords contains an unknown keyword,
the parse_variants dispatch raises (the whole pipeline aborts with the
raised Exception and no parsed variant data is produced). -/
theorem unknown_vcf_type_fatal (vcf_types : List String) (t : String)
    (hmem : t ∈ vcf_types)
    (hunk : t ∉ ["sanger", "mutect_pcawg", "mutect_smchet", "mutect_tcga", "muse", "dkfz",
      "strelka", "vardict", "pcawg_consensus"]) :
    ∃ e, parse_variants_vcf_types vcf_types = .error e := by
  induction vcf_types with
  | nil => exact absurd hmem (List.not_mem_nil t)
  | cons head rest ih =>
    rcases List.mem_cons.mp hmem with rfl | hrest
    · refine ⟨"Unknowon variant type: " ++ t, ?_⟩
      rw [parse_variants_vcf_types, dispatch_vcf_type_unknown t hunk]
    · rcases hd : dispatch_vcf_type head with e | caller
      · refine ⟨e, ?_⟩
        rw [parse_variants_vcf_types, hd]
      · obtain ⟨e, he⟩ := ih hrest
        refine ⟨e, ?_⟩
        rw [parse_variants_vcf_types, hd, he]

/-- Witness for C8: a run whose second file carries the unknown keyword
foo aborts with the dispatch error. -/
theorem unknown_vcf_type_fatal_witness :
    "foo" ∈ ["sanger", "foo"] ∧
    "foo" ∉ ["sanger", "mutect_pcawg", "mutect_smchet", "mutect_tcga", "muse", "dkfz",
      "strelka", "vardict", "pcawg_consensus"] ∧
    (∃ e, parse_variants_vcf_types ["sanger", "foo"] = .error e) := by
  refine ⟨by simp, by simp, ?_⟩
  exact unknown_vcf_type_fatal ["sanger", "foo"] "foo" (by simp) (by simp)

/-! ## Claim C6 -/

lemma key_le_total (a b : ℤ × ℤ) : key_le a b ∨ key_le b a := by
  rcases lt_trichotomy a.1 b.1 with h | h | h
  · exact Or.inl (Or.inl h)
  · rcases le_total a.2 b.2 with h2 | h2
    · exact Or.inl (Or.inr ⟨h, h2⟩)
    · exact Or.inr (Or.inr ⟨h.symm, h2⟩)
  · exact Or.inr (Or.inl h)

lemma key_le_trans {a b c : ℤ × ℤ} (h1 : key_le a b) (h2 : key_le b c) : key_le a c := by
  rcases h1 with h1 | ⟨e1, l1⟩
  · rcases h2 with h2 | ⟨e2, l2⟩
    · exact Or.inl (lt_trans h1 h2)
    · exact Or.inl (e2 ▸ h1)
  · rcases h2 with h2 | ⟨e2, l2⟩
    · exact Or.inl (e1 ▸ h2)
    · exact Or.inr ⟨e1.trans e2, le_trans l1 l2⟩

lemma select_fold_perm (variants : List VariantId) (priority_ssms : List (String × ℤ))
    (sample_size : ℕ) (idxs : List ℕ) : ∀ acc : List ℕ × List ℕ,
    ((idxs.foldl (select_step variants priority_ssms sample_size) acc).1 ++
      (idxs.foldl (select_step variants priority_ssms sample_size) acc).2).Perm
      ((acc.1 ++ acc.2) ++ idxs) := by
  induction idxs with
  | nil =>
    intro acc
    simp
  | cons i t ih =>
    intro acc
    rw [List.foldl_cons]
    refine (ih _).trans ?_
    rw [select_step]
    split
    · have h1 : ((acc.1 ++ [i]) ++ acc.2 : List ℕ).Perm ((acc.1 ++ acc.2) ++ [i]) := by
        rw [List.append_assoc, List.append_assoc]
        exact List.Perm.append_left acc.1 List.perm_append_comm
      refine (List.Perm.append_right t h1).trans (List.Perm.of_eq ?_)
      simp
    · refine List.Perm.of_eq ?_
      simp

lemma select_fold_sub_grows (variants : List VariantId) (priority_ssms : List (String × ℤ))
    (sample_size : ℕ) (idxs : List ℕ) : ∀ acc : List ℕ × List ℕ,
    ∃ l, (idxs.foldl (select_step variants priority_ssms sample_size) acc).1 = acc.1 ++ l := by
  induction idxs with
  | nil =>
    intro acc
    exact ⟨[], by simp⟩
  | cons i t ih =>
    intro acc
    rw [List.foldl_cons, select_step]
    split
    · obtain ⟨l, hl⟩ := ih (acc.1 ++ [i], acc.2)
      exact ⟨[i] ++ l, by rw [hl]; simp⟩
    · exact ih (acc.1, acc.2 ++ [i])

lemma select_fold_len_le (variants : List VariantId) (priority_ssms : List (String × ℤ))
    (sample_size : ℕ) (idxs : List ℕ) : ∀ acc : List ℕ × List ℕ,
    acc.1.length ≤ sample_size →
    (idxs.foldl (select_step variants priority_ssms sample_size) acc).1.length ≤ sample_size := by
  induction idxs with
  | nil =>
    intro acc h
    exact h
  | cons i t ih =>
    intro acc h
    rw [List.foldl_cons, select_step]
    split
    · rename_i hcond
      refine ih _ ?_
      have := hcond.1
      simp only [List.length_append, List.length_singleton]
      omega
    · exact ih _ h

lemma select_fold_priority (variants : List VariantId) (priority_ssms : List (String × ℤ))
    (sample_size : ℕ) (idxs : List ℕ) : ∀ acc : List ℕ × List ℕ,
    acc.1.length + idxs.countP (fun i =>
      decide (((variants.getD i default).CHROM, (variants.getD i default).POS) ∈ priority_ssms))
      ≤ sample_size →
    ∀ j ∈ idxs,
      ((variants.getD j default).CHROM, (variants.getD j default).POS) ∈ priority_ssms →
      j ∈ (idxs.foldl (select_step variants priority_ssms sample_size) acc).1 := by
  induction idxs with
  | nil =>
    intro acc hcnt j hj
    exact absurd hj (List.not_mem_nil j)
  | cons i t ih =>
    intro acc hcnt j hj hprio
    rw [List.countP_cons] at hcnt
    rw [List.foldl_cons]
    rcases List.mem_cons.mp hj with rfl | hjt
    · have hpi : (decide (((variants.getD j default).CHROM,
          (variants.getD j default).POS) ∈ priority_ssms)) = true := by
        exact decide_eq_true hprio
      rw [hpi] at hcnt
      simp only [eq_self_iff_true, if_true] at hcnt
      have hlen : acc.1.length < sample_size := by omega
      rw [select_step]
      rw [if_pos ⟨hlen, hprio⟩]
      obtain ⟨l, hl⟩ := select_fold_sub_grows variants priority_ssms sample_size t
        (acc.1 ++ [j], acc.2)
      rw [hl]
      simp
    · refine ih _ ?_ j hjt hprio
      rw [select_step]
      split
      · rename_i hcond
        have hpi : (decide (((variants.getD i default).CHROM,
            (variants.getD i default).POS) ∈ priority_ssms)) = true :=
          decide_eq_true hcond.2
        rw [hpi] at hcnt
        simp only [eq_self_iff_true, if_true] at hcnt
        simp only [List.length_append, List.length_singleton]
        omega
      · have hfst : ((acc.1, acc.2 ++ [i]) : List ℕ × List ℕ).1 = acc.1 := rfl
        rw [hfst]
        omega

lemma sorted_get_sorted_idxs (variants : List VariantId) (idxs : List ℕ) :
    List.Sorted variant_key_le
      (get_elements_at_indices variants (sort_by_variant_key variants idxs)) := by
  haveI hTot : IsTotal ℕ (fun i j =>
      variant_key_le (variants.getD i default) (variants.getD j default)) :=
    ⟨fun a b => key_le_total _ _⟩
  haveI hTrans : IsTrans ℕ (fun i j =>
      variant_key_le (variants.getD i default) (variants.getD j default)) :=
    ⟨fun a b c h1 h2 => key_le_trans h1 h2⟩
  have hs := List.sorted_insertionSort
    (fun i j => variant_key_le (variants.getD i default) (variants.getD j default)) idxs
  rw [get_elements_at_indices]
  exact List.Pairwise.map _ (fun a b h => h) hs

/-- C6: with a target sample size n, format_variants (run on the
externally shuffled index order) places every priority variant in the
subsample as long as the priority variants fit below n, fills the
subsample up to n (or up to the number of available variants), splits
the variant multiset exactly between the subsampled and nonsubsampled
groups, and returns each group re-sorted by the (chromosome, position)
key. -/
theorem format_variants_subsample_spec (variants : List VariantId) (shuffled_idxs : List ℕ)
    (n : ℕ) (priority_ssms : List (String × ℤ)) :
    (shuffled_idxs.countP (fun i =>
        decide (((variants.getD i default).CHROM, (variants.getD i default).POS)
          ∈ priority_ssms)) ≤ n →
      ∀ i ∈ shuffled_idxs,
        ((variants.getD i default).CHROM, (variants.getD i default).POS) ∈ priority_ssms →
        variants.getD i default ∈
          (format_variants variants shuffled_idxs (some n) priority_ssms).1) ∧
    (format_variants variants shuffled_idxs (some n) priority_ssms).1.length =
      min n shuffled_idxs.length ∧
    ((format_variants variants shuffled_idxs (some n) priority_ssms).1 ++
      (format_variants variants shuffled_idxs (some n) priority_ssms).2).Perm
      (get_elements_at_indices variants shuffled_idxs) ∧
    List.Sorted variant_key_le (format_variants variants shuffled_idxs (some n) priority_ssms).1 ∧
    List.Sorted variant_key_le (format_variants variants shuffled_idxs (some n) priority_ssms).2 := by
  have hperm0 := select_fold_perm variants priority_ssms n shuffled_idxs ([], [])
  simp only [List.append_nil, List.nil_append] at hperm0
  have hlen1 := select_fold_len_le variants priority_ssms n shuffled_idxs ([], [])
    (by simp)
  set sel := select_subsample variants priority_ssms n shuffled_idxs with hsel
  have hselfold : sel = shuffled_idxs.foldl (select_step variants priority_ssms n) ([], []) :=
    rfl
  rw [← hselfold] at hperm0 hlen1
  have hlensum : sel.1.length + sel.2.length = shuffled_idxs.length := by
    have := hperm0.length_eq
    simpa using this
  refine ⟨?_, ?_, ?_, ?_, ?_⟩
  · intro hcnt i hi hprio
    have hmem := select_fold_priority variants priority_ssms n shuffled_idxs ([], [])
      (by simpa using hcnt) i hi hprio
    rw [← hselfold] at hmem
    rw [format_variants]
    simp only [Option.getD_some]
    rw [get_elements_at_indices]
    refine List.mem_map_of_mem _ ?_
    have hmem2 : i ∈ sel.1 ++ sel.2.take (n - sel.1.length) :=
      List.mem_append_left _ hmem
    exact ((List.perm_insertionSort _ _).mem_iff).mpr hmem2
  · rw [format_variants]
    simp only [Option.getD_some, get_elements_at_indices, List.length_map]
    rw [sort_by_variant_key]
    rw [(List.perm_insertionSort _ _).length_eq]
    simp only [List.length_append, List.length_take]
    rw [← hsel]
    omega
  · rw [format_variants]
    simp only [Option.getD_some, get_elements_at_indices, sort_by_variant_key]
    rw [← List.map_append]
    have hp : ((List.insertionSort (fun i j =>
        variant_key_le (variants.getD i default) (variants.getD j default))
          (sel.1 ++ sel.2.take (n - sel.1.length))) ++
        (List.insertionSort (fun i j =>
        variant_key_le (variants.getD i default) (variants.getD j default))
          (sel.2.drop (n - sel.1.length)))).Perm shuffled_idxs := by
      refine ((List.perm_insertionSort _ _).append (List.perm_insertionSort _ _)).trans ?_
      rw [List.append_assoc, List.take_append_drop]
      exact hperm0
    exact hp.map _
  · exact sorted_get_sorted_idxs variants _
  · exact sorted_get_sorted_idxs variants _

/-- Witness for C6: three variants, shuffled order [2, 0, 1], priority
set containing the variant at index 1, sample size 2; the priority
variant lands in the subsample and all four conclusions hold. -/
theorem format_variants_subsample_spec_witness :
    ([2, 0, 1].countP (fun i =>
      decide ((([VariantId.mk ("2") 5, VariantId.mk ("1") 9, VariantId.mk ("1") 3].getD i
          default).CHROM,
        ([VariantId.mk ("2") 5, VariantId.mk ("1") 9, VariantId.mk ("1") 3].getD i
          default).POS) ∈ [(("1" : String), (9 : ℤ))])) ≤ 2) ∧
    (1 : ℕ) ∈ [2, 0, 1] ∧
    (([VariantId.mk ("2") 5, VariantId.mk ("1") 9, VariantId.mk ("1") 3].getD 1
        default).CHROM,
      ([VariantId.mk ("2") 5, VariantId.mk ("1") 9, VariantId.mk ("1") 3].getD 1
        default).POS) ∈ [(("1" : String), (9 : ℤ))] ∧
    [VariantId.mk ("2") 5, VariantId.mk ("1") 9, VariantId.mk ("1") 3].getD 1 default ∈
      (format_variants [VariantId.mk ("2") 5, VariantId.mk ("1") 9, VariantId.mk ("1") 3]
        [2, 0, 1] (some 2) [(("1" : String), (9 : ℤ))]).1 := by
  have hcnt : ([2, 0, 1].countP (fun i =>
      decide ((([VariantId.mk ("2") 5, VariantId.mk ("1") 9, VariantId.mk ("1") 3].getD i
          default).CHROM,
        ([VariantId.mk ("2") 5, VariantId.mk ("1") 9, VariantId.mk ("1") 3].getD i
          default).POS) ∈ [(("1" : String), (9 : ℤ))])) ≤ 2) := by
    simp [List.countP_cons]
  have hprio : (([VariantId.mk ("2") 5, VariantId.mk ("1") 9,
      VariantId.mk ("1") 3].getD 1 default).CHROM,
      ([VariantId.mk ("2") 5, VariantId.mk ("1") 9, VariantId.mk ("1") 3].getD 1
        default).POS) ∈ [(("1" : String), (9 : ℤ))] := by
    simp
  refine ⟨hcnt, by simp, hprio, ?_⟩
  exact (format_variants_subsample_spec
    [VariantId.mk ("2") 5, VariantId.mk ("1") 9, VariantId.mk ("1") 3] [2, 0, 1] 2
    [(("1" : String), (9 : ℤ))]).1 hcnt 1 (by simp) hprio

/-! ## Claim C2 -/

lemma prev_max_step_ge (m : ℚ) (r : CnvRegion) :
    m ≤ prev_max_step m r ∧ r.cellular_prevalence ≤ prev_max_step m r := by
  rw [prev_max_step]
  split
  · rename_i h
    exact ⟨le_of_lt h, le_refl _⟩
  · rename_i h
    exact ⟨le_refl _, not_lt.mp h⟩

lemma inner_fold_ge (regions : List CnvRegion) : ∀ m : ℚ,
    m ≤ regions.foldl prev_max_step m := by
  induction regions with
  | nil =>
    intro m
    exact le_refl m
  | cons r t ih =>
    intro m
    rw [List.foldl_cons]
    exact le_trans (prev_max_step_ge m r).1 (ih _)

lemma inner_fold_bound (regions : List CnvRegion) : ∀ (m : ℚ), ∀ r ∈ regions,
    r.cellular_prevalence ≤ regions.foldl prev_max_step m := by
  induction regions with
  | nil =>
    intro m r hr
    exact absurd hr (List.not_mem_nil r)
  | cons q t ih =>
    intro m r hr
    rw [List.foldl_cons]
    rcases List.mem_cons.mp hr with rfl | hrt
    · exact le_trans (prev_max_step_ge m r).2 (inner_fold_ge t _)
    · exact ih _ r hrt

lemma inner_fold_attain (regions : List CnvRegion) : ∀ m : ℚ,
    regions.foldl prev_max_step m = m ∨
      ∃ r ∈ regions, regions.foldl prev_max_step m = r.cellular_prevalence := by
  induction regions with
  | nil =>
    intro m
    exact Or.inl rfl
  | cons q t ih =>
    intro m
    rw [List.foldl_cons]
    rcases ih (prev_max_step m q) with h | ⟨r, hr, h⟩
    · rw [h, prev_max_step]
      split
      · exact Or.inr ⟨q, List.mem_cons_self q t, rfl⟩
      · exact Or.inl rfl
    · exact Or.inr ⟨r, List.mem_cons_of_mem q hr, h⟩

lemma outer_fold_ge (cnvs : List (String × List CnvRegion)) : ∀ m : ℚ,
    m ≤ cnvs.foldl (fun acc chrom_regions => chrom_regions.2.foldl prev_max_step acc) m := by
  induction cnvs with
  | nil =>
    intro m
    exact le_refl m
  | cons p t ih =>
    intro m
    rw [List.foldl_cons]
    exact le_trans (inner_fold_ge p.2 m) (ih _)

lemma find_cellularity_is_max (cnvs : List (String × List CnvRegion)) :
    ∀ p ∈ cnvs, ∀ r ∈ p.2, r.cellular_prevalence ≤ find_cellularity cnvs := by
  rw [find_cellularity]
  generalize (0 : ℚ) = m
  induction cnvs generalizing m with
  | nil =>
    intro p hp
    exact absurd hp (List.not_mem_nil p)
  | cons q t ih =>
    intro p hp r hr
    rw [List.foldl_cons]
    rcases List.mem_cons.mp hp with rfl | hpt
    · exact le_trans (inner_fold_bound p.2 m r hr) (outer_fold_ge t _)
    · exact ih _ p hpt r hr

lemma find_cellularity_attain_aux (cnvs : List (String × List CnvRegion)) : ∀ m : ℚ,
    cnvs.foldl (fun acc chrom_regions => chrom_regions.2.foldl prev_max_step acc) m = m ∨
      ∃ p ∈ cnvs, ∃ r ∈ p.2,
        cnvs.foldl (fun acc chrom_regions => chrom_regions.2.foldl prev_max_step acc) m =
          r.cellular_prevalence := by
  induction cnvs with
  | nil =>
    intro m
    exact Or.inl rfl
  | cons q t ih =>
    intro m
    rw [List.foldl_cons]
    rcases ih (q.2.foldl prev_max_step m) with h | ⟨p, hp, r, hr, h⟩
    · rw [h]
      rcases inner_fold_attain q.2 m with h2 | ⟨r, hr, h2⟩
      · exact Or.inl h2
      · exact Or.inr ⟨q, List.mem_cons_self q t, r, hr, h2⟩
    · exact Or.inr ⟨p, List.mem_cons_of_mem q hp, r, hr, h⟩

lemma find_cellularity_attained (cnvs : List (String × List CnvRegion))
    (hreg : ∀ p ∈ cnvs, ∀ r ∈ p.2, 0 ≤ r.cellular_prevalence)
    (hne : ∃ p ∈ cnvs, p.2 ≠ []) :
    ∃ p ∈ cnvs, ∃ r ∈ p.2, r.cellular_prevalence = find_cellularity cnvs := by
  rcases find_cellularity_attain_aux cnvs 0 with h | ⟨p, hp, r, hr, h⟩
  · obtain ⟨p, hp, hpne⟩ := hne
    rcases hq : p.2 with _ | ⟨r, rs⟩
    · exact absurd hq hpne
    · have hrmem : r ∈ p.2 := by
        rw [hq]
        exact List.mem_cons_self r rs
      refine ⟨p, hp, r, hrmem, le_antisymm (find_cellularity_is_max cnvs p hp r hrmem) ?_⟩
      rw [find_cellularity, h]
      exact hreg p hp r hrmem
  · exact ⟨p, hp, r, hr, by rw [find_cellularity, h]⟩

lemma strip_cnv_id_fields (f : FormattedCnv) :
    (strip_cnv_id f).cellular_prevalence = f.cellular_prevalence ∧
    (strip_cnv_id f).total_reads = f.total_reads ∧
    (strip_cnv_id f).ref_reads = f.ref_reads := by
  simp [strip_cnv_id]

lemma strip_cnv_id_update (f : FormattedCnv) (s : String) :
    strip_cnv_id { f with cnv_id := s } = strip_cnv_id f := by
  simp [strip_cnv_id]

lemma strip_merge_into (a b : FormattedCnv) :
    strip_cnv_id (CnvFormatter.merge_cnv_into a b) =
      CnvFormatter.merge_cnv_into (strip_cnv_id a) b := by
  simp [strip_cnv_id, CnvFormatter.merge_cnv_into, CnvFormatter.merge_variants]

lemma strip_merge_foldl (t : List FormattedCnv) : ∀ a : FormattedCnv,
    strip_cnv_id (t.foldl CnvFormatter.merge_cnv_into a) =
      t.foldl CnvFormatter.merge_cnv_into (strip_cnv_id a) := by
  induction t with
  | nil =>
    intro a
    rfl
  | cons b t ih =>
    intro a
    rw [List.foldl_cons, List.foldl_cons, ih, strip_merge_into]

lemma strip_merge_fold_update (a : FormattedCnv) (s : String) (t : List FormattedCnv) :
    strip_cnv_id (merge_fold ({ a with cnv_id := s } :: t)) =
      strip_cnv_id (merge_fold (a :: t)) := by
  rw [merge_fold, merge_fold, strip_merge_foldl, strip_merge_foldl, strip_cnv_id_update]

lemma merge_cnv_into_prev (a b : FormattedCnv) :
    (CnvFormatter.merge_cnv_into a b).cellular_prevalence = a.cellular_prevalence := rfl

lemma merge_foldl_prev (t : List FormattedCnv) : ∀ a : FormattedCnv,
    (t.foldl CnvFormatter.merge_cnv_into a).cellular_prevalence = a.cellular_prevalence := by
  induction t with
  | nil =>
    intro a
    rfl
  | cons b t ih =>
    intro a
    rw [List.foldl_cons, ih, merge_cnv_into_prev]

lemma merge_foldl_total (t : List FormattedCnv) : ∀ a : FormattedCnv,
    (t.foldl CnvFormatter.merge_cnv_into a).total_reads =
      a.total_reads + (t.map (fun f => f.total_reads)).sum := by
  induction t with
  | nil =>
    intro a
    simp
  | cons b t ih =>
    intro a
    rw [List.foldl_cons, ih]
    have : (CnvFormatter.merge_cnv_into a b).total_reads = b.total_reads + a.total_reads := rfl
    rw [this]
    simp
    ring

lemma merge_foldl_ref (t : List FormattedCnv) : ∀ a : FormattedCnv,
    a.ref_reads = CnvFormatter.calc_ref_reads a.cellular_prevalence a.total_reads →
    (t.foldl CnvFormatter.merge_cnv_into a).ref_reads =
      CnvFormatter.calc_ref_reads a.cellular_prevalence
        (t.foldl CnvFormatter.merge_cnv_into a).total_reads := by
  induction t with
  | nil =>
    intro a h
    exact h
  | cons b t ih =>
    intro a h
    rw [List.foldl_cons]
    have hstep := ih (CnvFormatter.merge_cnv_into a b) (by
      rw [merge_cnv_into_prev]
      rfl)
    rw [hstep, merge_cnv_into_prev]

lemma merge_loop_strip (c : ℚ) (rest : List FormattedCnv) :
    ∀ (cnt : ℕ) (last : FormattedCnv) (acc : List FormattedCnv),
    List.Pairwise (fun a b : FormattedCnv =>
      a.cellular_prevalence ≤ b.cellular_prevalence) (last :: rest) →
    (∀ f ∈ last :: rest, f.cellular_prevalence ≤ c) →
    (CnvFormatter.merge_loop c cnt last acc rest).map strip_cnv_id =
      acc.reverse.map strip_cnv_id ++
      (if last.cellular_prevalence = c then
        [strip_cnv_id (merge_fold (last :: rest))]
      else
        strip_cnv_id last ::
          ((rest.filter (fun f => !(decide (f.cellular_prevalence = c)))).map strip_cnv_id ++
            (if rest.filter (fun f => decide (f.cellular_prevalence = c)) = [] then []
             else [strip_cnv_id
               (merge_fold (rest.filter (fun f => decide (f.cellular_prevalence = c))))]))) := by
  induction rest with
  | nil =>
    intro cnt last acc hsort hle
    rw [CnvFormatter.merge_loop]
    have hmf : merge_fold [last] = last := rfl
    split
    · rw [hmf]
      simp
    · simp
  | cons cur rest ih =>
    intro cnt last acc hsort hle
    obtain ⟨hlast_le, hsort_tail⟩ := List.pairwise_cons.mp hsort
    obtain ⟨hcur_le, hsort_rest⟩ := List.pairwise_cons.mp hsort_tail
    rw [CnvFormatter.merge_loop]
    split
    · rename_i hcond
      have hlc : last.cellular_prevalence = c := hcond.2
      have hsort2 : List.Pairwise (fun a b : FormattedCnv =>
          a.cellular_prevalence ≤ b.cellular_prevalence)
          (CnvFormatter.merge_cnv_into last cur :: rest) := by
        refine List.pairwise_cons.mpr ⟨?_, hsort_rest⟩
        intro b hb
        rw [merge_cnv_into_prev]
        exact hlast_le b (List.mem_cons_of_mem cur hb)
      have hle2 : ∀ f ∈ CnvFormatter.merge_cnv_into last cur :: rest,
          f.cellular_prevalence ≤ c := by
        intro f hf
        rcases List.mem_cons.mp hf with rfl | hfr
        · rw [merge_cnv_into_prev]
          exact hle last (List.mem_cons_self _ _)
        · exact hle f (List.mem_cons_of_mem _ (List.mem_cons_of_mem _ hfr))
      rw [ih cnt _ acc hsort2 hle2, merge_cnv_into_prev, if_pos hlc, if_pos hlc]
      have hmf : merge_fold (CnvFormatter.merge_cnv_into last cur :: rest) =
          merge_fold (last :: cur :: rest) := by
        rw [merge_fold, merge_fold, List.foldl_cons]
      rw [hmf]
    · rename_i hcond
      by_cases hlc : last.cellular_prevalence = c
      · exfalso
        apply hcond
        refine ⟨?_, hlc⟩
        have h1 : last.cellular_prevalence ≤ cur.cellular_prevalence :=
          hlast_le cur (List.mem_cons_self _ _)
        have h2 : cur.cellular_prevalence ≤ c :=
          hle cur (List.mem_cons_of_mem _ (List.mem_cons_self _ _))
        rw [hlc] at h1
        rw [hlc]
        exact le_antisymm h2 h1
      · have hupd : ({ cur with cnv_id := "c" ++ toString cnt } :
            FormattedCnv).cellular_prevalence = cur.cellular_prevalence := rfl
        have hsort2 : List.Pairwise (fun a b : FormattedCnv =>
            a.cellular_prevalence ≤ b.cellular_prevalence)
            (({ cur with cnv_id := "c" ++ toString cnt } : FormattedCnv) :: rest) := by
          refine List.pairwise_cons.mpr ⟨?_, hsort_rest⟩
          intro b hb
          rw [hupd]
          exact hcur_le b hb
        have hle2 : ∀ f ∈ ({ cur with cnv_id := "c" ++ toString cnt } : FormattedCnv) :: rest,
            f.cellular_prevalence ≤ c := by
          intro f hf
          rcases List.mem_cons.mp hf with rfl | hfr
          · rw [hupd]
            exact hle cur (List.mem_cons_of_mem _ (List.mem_cons_self _ _))
          · exact hle f (List.mem_cons_of_mem _ (List.mem_cons_of_mem _ hfr))
        rw [ih (cnt + 1) _ (last :: acc) hsort2 hle2, hupd]
        by_cases hcc : cur.cellular_prevalence = c
        · have hrestc : ∀ f ∈ rest, f.cellular_prevalence = c := by
            intro f hf
            refine le_antisymm
              (hle f (List.mem_cons_of_mem _ (List.mem_cons_of_mem _ hf))) ?_
            rw [← hcc]
            exact hcur_le f hf
          have hf1 : (cur :: rest).filter
              (fun f => !(decide (f.cellular_prevalence = c))) = [] := by
            rw [List.filter_eq_nil_iff]
            intro a ha
            rcases List.mem_cons.mp ha with rfl | har
            · simp [hcc]
            · simp [hrestc a har]
          have hf2 : (cur :: rest).filter
              (fun f => decide (f.cellular_prevalence = c)) = cur :: rest := by
            rw [List.filter_eq_self]
            intro a ha
            rcases List.mem_cons.mp ha with rfl | har
            · simp [hcc]
            · simp [hrestc a har]
          rw [if_pos hcc, if_neg hlc, hf1, hf2,
            if_neg (List.cons_ne_nil cur rest), strip_merge_fold_update]
          simp
        · have hf1 : (cur :: rest).filter
              (fun f => !(decide (f.cellular_prevalence = c))) =
              cur :: rest.filter (fun f => !(decide (f.cellular_prevalence = c))) := by
            rw [List.filter_cons_of_pos]
            simp [hcc]
          have hf2 : (cur :: rest).filter
              (fun f => decide (f.cellular_prevalence = c)) =
              rest.filter (fun f => decide (f.cellular_prevalence = c)) := by
            rw [List.filter_cons_of_neg]
            simp [hcc]
          rw [if_neg hcc, if_neg hlc, hf1, hf2, strip_cnv_id_update]
          simp

lemma mem_format_cnvs_fields (self : CnvFormatter) (cnvs : List (String × List CnvRegion))
    (variants : List SsmVariant) :
    ∀ f ∈ self.format_cnvs cnvs variants,
      (∃ p ∈ cnvs, ∃ r ∈ p.2, f.cellular_prevalence = r.cellular_prevalence) ∧
      f.ref_reads = CnvFormatter.calc_ref_reads f.cellular_prevalence f.total_reads := by
  intro f hf
  rw [CnvFormatter.format_cnvs, List.mem_flatMap] at hf
  obtain ⟨p, hp, hf⟩ := hf
  rw [List.mem_map] at hf
  obtain ⟨r, hr, rfl⟩ := hf
  exact ⟨⟨p, hp, r, hr, rfl⟩, rfl⟩

lemma region_mem_format_cnvs (self : CnvFormatter) (cnvs : List (String × List CnvRegion))
    (variants : List SsmVariant) :
    ∀ p ∈ cnvs, ∀ r ∈ p.2, ∃ f ∈ self.format_cnvs cnvs variants,
      f.cellular_prevalence = r.cellular_prevalence := by
  intro p hp r hr
  rw [CnvFormatter.format_cnvs]
  refine ⟨_, List.mem_flatMap.mpr ⟨p, hp, List.mem_map_of_mem _ hr⟩, rfl⟩

lemma merge_fold_clonal_fields (c : ℚ) (l : List FormattedCnv) (hne : l ≠ [])
    (hc : ∀ f ∈ l, f.cellular_prevalence = c)
    (href : ∀ f ∈ l,
      f.ref_reads = CnvFormatter.calc_ref_reads f.cellular_prevalence f.total_reads) :
    (merge_fold l).cellular_prevalence = c ∧
    (merge_fold l).total_reads = (l.map (fun f => f.total_reads)).sum ∧
    (merge_fold l).ref_reads =
      CnvFormatter.calc_ref_reads c ((l.map (fun f => f.total_reads)).sum) := by
  rcases l with _ | ⟨h, t⟩
  · exact absurd rfl hne
  · rw [merge_fold]
    have hprev : (t.foldl CnvFormatter.merge_cnv_into h).cellular_prevalence =
        h.cellular_prevalence := merge_foldl_prev t h
    have htot : (t.foldl CnvFormatter.merge_cnv_into h).total_reads =
        h.total_reads + (t.map (fun f => f.total_reads)).sum := merge_foldl_total t h
    have hhc : h.cellular_prevalence = c := hc h (List.mem_cons_self _ _)
    refine ⟨by rw [hprev, hhc], by rw [htot]; simp, ?_⟩
    have href2 := merge_foldl_ref t h (by
      rw [href h (List.mem_cons_self _ _)])
    rw [href2, hhc, htot]
    simp

/-- C2: after the formatted regions are sorted by ascending cellular
prevalence, the merge pass of format_and_merge_cnvs merges a region into
the immediately preceding accumulated region exactly when both carry the
maximal observed prevalence (the cellularity found by find_cellularity):
up to cnv-id assignment, the merged list consists of every sub-maximal
region unchanged and in order, followed by one region accumulating all
cellularity-prevalence regions, whose total_reads is the sum of their
total_reads and whose ref_reads is recomputed from that combined total
by the ref-reads formula; a region whose prevalence differs from the
cellularity is never merged with anything. -/
theorem format_and_merge_clonal_spec (self : CnvFormatter)
    (cnvs : List (String × List CnvRegion)) (variants : List SsmVariant)
    (hreg : ∀ p ∈ cnvs, ∀ r ∈ p.2, 0 ≤ r.cellular_prevalence)
    (hne : ∃ p ∈ cnvs, p.2 ≠ []) :
    (self.merged_cnvs cnvs variants).map strip_cnv_id =
      (self.subclonal_formatted cnvs variants).map strip_cnv_id ++
        [strip_cnv_id (merge_fold (self.clonal_formatted cnvs variants))] ∧
    (merge_fold (self.clonal_formatted cnvs variants)).cellular_prevalence =
      find_cellularity cnvs ∧
    (merge_fold (self.clonal_formatted cnvs variants)).total_reads =
      ((self.clonal_formatted cnvs variants).map (fun f => f.total_reads)).sum ∧
    (merge_fold (self.clonal_formatted cnvs variants)).ref_reads =
      CnvFormatter.calc_ref_reads (find_cellularity cnvs)
        ((self.clonal_formatted cnvs variants).map (fun f => f.total_reads)).sum := by
  have hperm : (self.sorted_formatted cnvs variants).Perm (self.format_cnvs cnvs variants) := by
    rw [CnvFormatter.sorted_formatted]
    exact List.perm_insertionSort _ _
  have hsort : List.Pairwise (fun a b : FormattedCnv =>
      a.cellular_prevalence ≤ b.cellular_prevalence) (self.sorted_formatted cnvs variants) := by
    rw [CnvFormatter.sorted_formatted]
    exact List.sorted_insertionSort _ _
  have hle : ∀ f ∈ self.sorted_formatted cnvs variants,
      f.cellular_prevalence ≤ find_cellularity cnvs := by
    intro f hf
    obtain ⟨⟨p, hp, r, hr, hpr⟩, -⟩ :=
      mem_format_cnvs_fields self cnvs variants f (hperm.mem_iff.mp hf)
    rw [hpr]
    exact find_cellularity_is_max cnvs p hp r hr
  have href_all : ∀ f ∈ self.sorted_formatted cnvs variants,
      f.ref_reads = CnvFormatter.calc_ref_reads f.cellular_prevalence f.total_reads := by
    intro f hf
    exact (mem_format_cnvs_fields self cnvs variants f (hperm.mem_iff.mp hf)).2
  have hattain : ∃ f ∈ self.sorted_formatted cnvs variants,
      f.cellular_prevalence = find_cellularity cnvs := by
    obtain ⟨p, hp, r, hr, hrc⟩ := find_cellularity_attained cnvs hreg hne
    obtain ⟨f, hf, hfp⟩ := region_mem_format_cnvs self cnvs variants p hp r hr
    exact ⟨f, hperm.mem_iff.mpr hf, by rw [hfp, hrc]⟩
  have hclonal_mem : ∀ f ∈ self.clonal_formatted cnvs variants,
      f.cellular_prevalence = find_cellularity cnvs := by
    intro f hf
    rw [CnvFormatter.clonal_formatted, List.mem_filter] at hf
    exact of_decide_eq_true hf.2
  have hclonal_ne : self.clonal_formatted cnvs variants ≠ [] := by
    obtain ⟨f, hf, hfc⟩ := hattain
    refine List.ne_nil_of_mem (a := f) ?_
    rw [CnvFormatter.clonal_formatted, List.mem_filter]
    exact ⟨hf, decide_eq_true hfc⟩
  have hclonal_sub : ∀ f ∈ self.clonal_formatted cnvs variants,
      f ∈ self.sorted_formatted cnvs variants := by
    intro f hf
    rw [CnvFormatter.clonal_formatted, List.mem_filter] at hf
    exact hf.1
  have hfields := merge_fold_clonal_fields (find_cellularity cnvs)
    (self.clonal_formatted cnvs variants) hclonal_ne hclonal_mem
    (fun f hf => href_all f (hclonal_sub f hf))
  refine ⟨?_, hfields.1, hfields.2.1, hfields.2.2⟩
  rcases hs : self.sorted_formatted cnvs variants with _ | ⟨first, rest⟩
  · rw [hs] at hattain
    obtain ⟨f, hf, -⟩ := hattain
    exact absurd hf (List.not_mem_nil f)
  · rw [hs] at hsort hle href_all
    rw [CnvFormatter.merged_cnvs, hs]
    have hupd : (({ first with cnv_id := "c0" }) : FormattedCnv).cellular_prevalence =
        first.cellular_prevalence := rfl
    obtain ⟨hfirst_le, hsort_rest⟩ := List.pairwise_cons.mp hsort
    have hsort2 : List.Pairwise (fun a b : FormattedCnv =>
        a.cellular_prevalence ≤ b.cellular_prevalence)
        (({ first with cnv_id := "c0" } : FormattedCnv) :: rest) := by
      refine List.pairwise_cons.mpr ⟨?_, hsort_rest⟩
      intro b hb
      rw [hupd]
      exact hfirst_le b hb
    have hle2 : ∀ f ∈ ({ first with cnv_id := "c0" } : FormattedCnv) :: rest,
        f.cellular_prevalence ≤ find_cellularity cnvs := by
      intro f hf
      rcases List.mem_cons.mp hf with rfl | hfr
      · rw [hupd]
        exact hle first (List.mem_cons_self _ _)
      · exact hle f (List.mem_cons_of_mem _ hfr)
    rw [merge_loop_strip (find_cellularity cnvs) rest 1 _ [] hsort2 hle2, hupd]
    rw [CnvFormatter.subclonal_formatted, CnvFormatter.clonal_formatted, hs]
    by_cases hfc : first.cellular_prevalence = find_cellularity cnvs
    · have hrestc : ∀ f ∈ rest, f.cellular_prevalence = find_cellularity cnvs := by
        intro f hf
        refine le_antisymm (hle f (List.mem_cons_of_mem _ hf)) ?_
        rw [← hfc]
        exact hfirst_le f hf
      have hf1 : (first :: rest).filter
          (fun f => !(decide (f.cellular_prevalence = find_cellularity cnvs))) = [] := by
        rw [List.filter_eq_nil_iff]
        intro a ha
        rcases List.mem_cons.mp ha with rfl | har
        · simp [hfc]
        · simp [hrestc a har]
      have hf2 : (first :: rest).filter
          (fun f => decide (f.cellular_prevalence = find_cellularity cnvs)) =
          first :: rest := by
        rw [List.filter_eq_self]
        intro a ha
        rcases List.mem_cons.mp ha with rfl | har
        · simp [hfc]
        · simp [hrestc a har]
      rw [if_pos hfc, hf1, hf2, strip_merge_fold_update]
      simp
    · have hf1 : (first :: rest).filter
          (fun f => !(decide (f.cellular_prevalence = find_cellularity cnvs))) =
          first :: rest.filter
            (fun f => !(decide (f.cellular_prevalence = find_cellularity cnvs))) := by
        rw [List.filter_cons_of_pos]
        simp [hfc]
      have hf2 : (first :: rest).filter
          (fun f => decide (f.cellular_prevalence = find_cellularity cnvs)) =
          rest.filter
            (fun f => decide (f.cellular_prevalence = find_cellularity cnvs)) := by
        rw [List.filter_cons_of_neg]
        simp [hfc]
      have hne2 : rest.filter
          (fun f => decide (f.cellular_prevalence = find_cellularity cnvs)) ≠ [] := by
        obtain ⟨f, hf, hfcc⟩ := hattain
        rw [hs] at hf
        rcases List.mem_cons.mp hf with rfl | hfr
        · exact absurd hfcc hfc
        · refine List.ne_nil_of_mem (a := f) ?_
          rw [List.mem_filter]
          exact ⟨hfr, decide_eq_true hfcc⟩
      rw [if_neg hfc, hf1, hf2, if_neg hne2, strip_cnv_id_update]
      simp

/-- Witness for C2: one chromosome with a clonal region (prevalence 1)
and a sub-clonal region (prevalence 1/2). -/
theorem format_and_merge_clonal_spec_witness :
    (∀ p ∈ [(("1" : String), [CnvRegion.mk 1 1000 2 1 1, CnvRegion.mk 2000 3000 3 1 (1/2)])],
      ∀ r ∈ p.2, 0 ≤ r.cellular_prevalence) ∧
    (∃ p ∈ [(("1" : String), [CnvRegion.mk 1 1000 2 1 1, CnvRegion.mk 2000 3000 3 1 (1/2)])],
      p.2 ≠ []) ∧
    ((CnvFormatter.mk (1/2) 1 50 100).merged_cnvs
        [(("1" : String), [CnvRegion.mk 1 1000 2 1 1, CnvRegion.mk 2000 3000 3 1 (1/2)])]
        []).map strip_cnv_id =
      ((CnvFormatter.mk (1/2) 1 50 100).subclonal_formatted
        [(("1" : String), [CnvRegion.mk 1 1000 2 1 1, CnvRegion.mk 2000 3000 3 1 (1/2)])]
        []).map strip_cnv_id ++
        [strip_cnv_id (merge_fold ((CnvFormatter.mk (1/2) 1 50 100).clonal_formatted
          [(("1" : String), [CnvRegion.mk 1 1000 2 1 1, CnvRegion.mk 2000 3000 3 1 (1/2)])]
          []))] := by
  have hreg : ∀ p ∈ [(("1" : String),
      [CnvRegion.mk 1 1000 2 1 1, CnvRegion.mk 2000 3000 3 1 (1/2)])],
      ∀ r ∈ p.2, 0 ≤ r.cellular_prevalence := by
    intro p hp r hr
    rw [List.mem_singleton] at hp
    subst hp
    rcases List.mem_cons.mp hr with rfl | hr2
    · norm_num
    · rw [List.mem_singleton] at hr2
      subst hr2
      norm_num
  have hnee : ∃ p ∈ [(("1" : String),
      [CnvRegion.mk 1 1000 2 1 1, CnvRegion.mk 2000 3000 3 1 (1/2)])], p.2 ≠ [] := by
    refine ⟨_, List.mem_singleton_self _, ?_⟩
    simp
  exact ⟨hreg, hnee,
    (format_and_merge_clonal_spec (CnvFormatter.mk (1/2) 1 50 100)
      [(("1" : String), [CnvRegion.mk 1 1000 2 1 1, CnvRegion.mk 2000 3000 3 1 (1/2)])]
      [] hreg hnee).1⟩

/-! ## Claim C3 -/

lemma walk_regions_aux_fuel (c : ℚ) : ∀ (f1 : ℕ) (l : List CnvRegion) (f2 : ℕ),
    l.length ≤ f1 → l.length ≤ f2 →
    walk_regions_aux c f1 l = walk_regions_aux c f2 l := by
  intro f1
  induction f1 with
  | zero =>
    intro l f2 h1 h2
    have : l = [] := List.eq_nil_of_length_eq_zero (Nat.le_zero.mp h1)
    subst this
    cases f2 <;> rfl
  | succ k ih =>
    intro l f2 h1 h2
    rcases l with _ | ⟨region, rest⟩
    · cases f2 <;> rfl
    · rcases f2 with _ | m
      · exact absurd h2 (by simp)
      · rw [List.length_cons] at h1 h2
        rw [walk_regions_aux, walk_regions_aux]
        have hrest : rest.length ≤ k := Nat.lt_succ_iff.mp (Nat.lt_of_lt_of_le (Nat.lt_succ_self _) h1)
        have hrest2 : rest.length ≤ m := Nat.lt_succ_iff.mp (Nat.lt_of_lt_of_le (Nat.lt_succ_self _) h2)
        have hdrop : (rest.dropWhile (fun r => r.start == region.start)).length ≤ rest.length :=
          (List.dropWhile_suffix _).length_le
        simp only [ih rest m hrest hrest2,
          ih (rest.dropWhile (fun r => r.start == region.start)) m
            (le_trans hdrop hrest) (le_trans hdrop hrest2)]

lemma walk_regions_cons_clonal (c : ℚ) (region : CnvRegion) (rest : List CnvRegion)
    (h : region.cellular_prevalence = c) :
    walk_regions c (region :: rest) =
      (walk_regions c rest).map (fun good => region :: good) := by
  rw [walk_regions, walk_regions, List.length_cons, walk_regions_aux, if_pos h]

lemma walk_regions_cons_subclonal (c : ℚ) (region : CnvRegion) (rest : List CnvRegion)
    (h : ¬ region.cellular_prevalence = c) :
    walk_regions c (region :: rest) =
      (if (region :: rest.takeWhile (fun r => r.start == region.start)).all
          (fun r => r.end_ == region.end_) then
        (walk_regions c (rest.dropWhile (fun r => r.start == region.start))).map
          (fun good =>
            (if ((region :: rest.takeWhile (fun r => r.start == region.start)).filter
                (fun r => !is_region_normal_cn r)).length == 1 then
              (region :: rest.takeWhile (fun r => r.start == region.start)).filter
                (fun r => !is_region_normal_cn r)
            else []) ++ good)
      else none) := by
  rw [walk_regions, walk_regions, List.length_cons, walk_regions_aux, if_neg h]
  have hdrop : (rest.dropWhile (fun r => r.start == region.start)).length ≤ rest.length :=
    (List.dropWhile_suffix _).length_le
  simp only [walk_regions_aux_fuel c rest.length
    (rest.dropWhile (fun r => r.start == region.start))
    (rest.dropWhile (fun r => r.start == region.start)).length hdrop (le_refl _)]

lemma walk_regions_subset (c : ℚ) : ∀ (n : ℕ) (l : List CnvRegion), l.length ≤ n →
    ∀ out, walk_regions c l = some out → ∀ r ∈ out, r ∈ l := by
  intro n
  induction n with
  | zero =>
    intro l h out hout r hr
    have : l = [] := List.eq_nil_of_length_eq_zero (Nat.le_zero.mp h)
    subst this
    rw [walk_regions] at hout
    simp only [List.length_nil] at hout
    cases hout
    exact absurd hr (List.not_mem_nil r)
  | succ k ih =>
    intro l h out hout r hr
    rcases l with _ | ⟨r0, rest⟩
    · rw [walk_regions] at hout
      simp only [List.length_nil] at hout
      cases hout
      exact absurd hr (List.not_mem_nil r)
    · rw [List.length_cons] at h
      have hrest : rest.length ≤ k := Nat.lt_succ_iff.mp (Nat.lt_of_lt_of_le (Nat.lt_succ_self _) h)
      by_cases hc : r0.cellular_prevalence = c
      · rw [walk_regions_cons_clonal c r0 rest hc] at hout
        rcases hw : walk_regions c rest with _ | good
        · rw [hw] at hout
          exact Option.noConfusion hout
        · rw [hw] at hout
          simp only [Option.map_some', Option.some.injEq] at hout
          subst hout
          rcases List.mem_cons.mp hr with rfl | hrg
          · exact List.mem_cons_self _ _
          · exact List.mem_cons_of_mem _ (ih rest hrest good hw r hrg)
      · rw [walk_regions_cons_subclonal c r0 rest hc] at hout
        split at hout
        · rcases hw : walk_regions c (rest.dropWhile (fun r => r.start == r0.start)) with _ | good
          · rw [hw] at hout
            exact Option.noConfusion hout
          · rw [hw] at hout
            simp only [Option.map_some', Option.some.injEq] at hout
            subst hout
            rcases List.mem_append.mp hr with hsel | hgood
            · have hblk : r ∈ r0 :: rest.takeWhile (fun r => r.start == r0.start) := by
                revert hsel
                split
                · intro hsel
                  exact (List.filter_sublist _).subset hsel
                · intro hsel
                  exact absurd hsel (List.not_mem_nil r)
              rcases List.mem_cons.mp hblk with rfl | htw
              · exact List.mem_cons_self _ _
              · exact List.mem_cons_of_mem _ ((List.takeWhile_sublist _).subset htw)
            · have hdrop : (rest.dropWhile (fun r => r.start == r0.start)).length ≤ rest.length :=
                (List.dropWhile_suffix _).length_le
              have := ih (rest.dropWhile (fun r => r.start == r0.start))
                (le_trans hdrop hrest) good hw r hgood
              exact List.mem_cons_of_mem _ ((List.dropWhile_suffix _).subset this)
        · exact Option.noConfusion hout

lemma takeWhile_append_boundary {α : Type} (p : α → Bool) (l1 l2 : List α)
    (h : (∀ x ∈ l1, p x = true) → ∀ y ∈ l2.head?, p y = false) :
    (l1 ++ l2).takeWhile p = l1.takeWhile p ∧
    (l1 ++ l2).dropWhile p = l1.dropWhile p ++ l2 := by
  by_cases hfull : ∀ x ∈ l1, p x = true
  · have ht : l1.takeWhile p = l1 := List.takeWhile_eq_self_iff.mpr hfull
    have hd : l1.dropWhile p = [] := List.dropWhile_eq_nil_iff.mpr hfull
    have hl2 : l2.takeWhile p = [] ∧ l2.dropWhile p = l2 := by
      rcases l2 with _ | ⟨y, ys⟩
      · exact ⟨rfl, rfl⟩
      · have hy : p y = false := h hfull y (by simp)
        constructor
        · simp [List.takeWhile_cons, hy]
        · simp [List.dropWhile_cons, hy]
    constructor
    · rw [List.takeWhile_append, ht, if_pos rfl, hl2.1, List.append_nil]
    · rw [List.dropWhile_append, hd]
      simp [hl2.2]
  · have hlen : (l1.takeWhile p).length ≠ l1.length := by
      intro hlen
      apply hfull
      have heq := (List.takeWhile_sublist (l := l1) p).eq_of_length hlen
      intro x hx
      rw [← heq] at hx
      exact List.mem_takeWhile_imp hx
    have hne : ¬(l1.dropWhile p).isEmpty = true := by
      rw [List.isEmpty_iff]
      intro hnil
      exact hfull (List.dropWhile_eq_nil_iff.mp hnil)
    constructor
    · rw [List.takeWhile_append, if_neg hlen]
    · rw [List.dropWhile_append, if_neg hne]

lemma walk_regions_clonal_run (c : ℚ) (p l : List CnvRegion)
    (hp : ∀ x ∈ p, x.cellular_prevalence = c) :
    walk_regions c (p ++ l) = (walk_regions c l).map (fun good => p ++ good) := by
  induction p with
  | nil =>
    cases hw : walk_regions c l <;> simp [hw]
  | cons x p ih =>
    rw [List.cons_append,
      walk_regions_cons_clonal c x (p ++ l) (hp x (List.mem_cons_self _ _)),
      ih (fun y hy => hp y (List.mem_cons_of_mem _ hy))]
    cases walk_regions c l <;> simp

lemma walk_regions_nil_append (c : ℚ) (l2 : List CnvRegion) :
    walk_regions c ([] ++ l2) =
      (walk_regions c []).bind (fun o1 => (walk_regions c l2).map (fun o2 => o1 ++ o2)) := by
  show walk_regions c l2 =
    (some []).bind fun o1 => (walk_regions c l2).map (fun o2 => o1 ++ o2)
  cases hw : walk_regions c l2 <;> simp

lemma walk_regions_append (c : ℚ) : ∀ (n : ℕ) (l1 l2 : List CnvRegion), l1.length ≤ n →
    (∀ x ∈ l1.getLast?, ∀ y ∈ l2.head?, ¬ x.start = y.start) →
    walk_regions c (l1 ++ l2) =
      (walk_regions c l1).bind (fun o1 => (walk_regions c l2).map (fun o2 => o1 ++ o2)) := by
  intro n
  induction n with
  | zero =>
    intro l1 l2 h1 hb
    have : l1 = [] := List.eq_nil_of_length_eq_zero (Nat.le_zero.mp h1)
    subst this
    exact walk_regions_nil_append c l2
  | succ k ih =>
    intro l1 l2 h1 hb
    rcases l1 with _ | ⟨r0, rest⟩
    · exact walk_regions_nil_append c l2
    · rw [List.length_cons] at h1
      have hrest : rest.length ≤ k :=
        Nat.lt_succ_iff.mp (Nat.lt_of_lt_of_le (Nat.lt_succ_self _) h1)
      by_cases hc : r0.cellular_prevalence = c
      · rw [List.cons_append, walk_regions_cons_clonal c r0 (rest ++ l2) hc,
          walk_regions_cons_clonal c r0 rest hc]
        have hb2 : ∀ x ∈ rest.getLast?, ∀ y ∈ l2.head?, ¬ x.start = y.start := by
          intro x hx y hy
          refine hb x ?_ y hy
          rcases rest with _ | ⟨a, as⟩
          · simp at hx
          · rw [List.getLast?_cons_cons]
            exact hx
        rw [ih rest l2 hrest hb2]
        cases walk_regions c rest <;> cases walk_regions c l2 <;> simp
      · rw [List.cons_append, walk_regions_cons_subclonal c r0 (rest ++ l2) hc,
          walk_regions_cons_subclonal c r0 rest hc]
        have hbound : (∀ x ∈ rest, (fun r : CnvRegion => r.start == r0.start) x = true) →
            ∀ y ∈ l2.head?, (fun r : CnvRegion => r.start == r0.start) y = false := by
          intro hfull y hy
          simp only [beq_eq_false_iff_ne, ne_eq]
          intro hys
          rcases hrest2 : rest with _ | ⟨a, as⟩
          · subst hrest2
            exact hb r0 (by simp) y hy hys.symm
          · subst hrest2
            have hlne : (a :: as) ≠ [] := by simp
            have hmem : (a :: as).getLast hlne ∈ a :: as := List.getLast_mem hlne
            have hpl : ((a :: as).getLast hlne).start = r0.start := by
              have := hfull _ hmem
              simpa using this
            refine hb ((a :: as).getLast hlne) ?_ y hy ?_
            · rw [List.getLast?_cons_cons, List.getLast?_eq_getLast _ hlne]
              rfl
            · rw [hpl]
              exact hys.symm
        obtain ⟨htake, hdrop⟩ :=
          takeWhile_append_boundary (fun r : CnvRegion => r.start == r0.start) rest l2 hbound
        rw [htake, hdrop]
        split
        · have hdl : (rest.dropWhile (fun r => r.start == r0.start)).length ≤ k :=
            le_trans ((List.dropWhile_suffix _).length_le) hrest
        
          have hb3 : ∀ x ∈ (rest.dropWhile (fun r => r.start == r0.start)).getLast?,
              ∀ y ∈ l2.head?, ¬ x.start = y.start := by
            intro x hx y hy
            obtain ⟨hdne, -⟩ := List.mem_getLast?_eq_getLast hx
            have hrne : rest ≠ [] := by
              intro hrnil
              apply hdne
              rw [hrnil]
              rfl
            refine hb x ?_ y hy
            have heq1 : rest.getLast? =
                (rest.dropWhile (fun r => r.start == r0.start)).getLast? := by
              obtain ⟨t, ht⟩ := List.dropWhile_suffix (l := rest)
                (fun r : CnvRegion => r.start == r0.start)
              conv_lhs => rw [← ht]
              rw [List.getLast?_append, List.getLast?_eq_getLast _ hdne]
              rfl
            have heq2 : (r0 :: rest).getLast? = rest.getLast? := by
              rcases rest with _ | ⟨a, as⟩
              · exact absurd rfl hrne
              · rw [List.getLast?_cons_cons]
            rw [heq2, heq1]
            exact hx
          rw [ih (rest.dropWhile (fun r => r.start == r0.start)) l2 hdl hb3]
          cases walk_regions c (rest.dropWhile (fun r => r.start == r0.start)) <;>
            cases walk_regions c l2 <;> simp
        · rfl

lemma walk_regions_block (c : ℚ) (s0 e0 : ℤ) (blk : List CnvRegion) (hne : blk ≠ [])
    (hall : ∀ b ∈ blk, b.start = s0 ∧ b.end_ = e0 ∧ ¬ b.cellular_prevalence = c) :
    walk_regions c blk =
      some (if (blk.filter (fun r => !is_region_normal_cn r)).length = 1
        then blk.filter (fun r => !is_region_normal_cn r) else []) := by
  rcases blk with _ | ⟨b, bs⟩
  · exact absurd rfl hne
  · obtain ⟨hbs, hbe, hbc⟩ := hall b (List.mem_cons_self _ _)
    rw [walk_regions_cons_subclonal c b bs hbc]
    have htw : bs.takeWhile (fun r => r.start == b.start) = bs := by
      rw [List.takeWhile_eq_self_iff]
      intro x hx
      have h1 := (hall x (List.mem_cons_of_mem _ hx)).1
      simp [h1, hbs]
    have hdw : bs.dropWhile (fun r => r.start == b.start) = [] := by
      rw [List.dropWhile_eq_nil_iff]
      intro x hx
      have h1 := (hall x (List.mem_cons_of_mem _ hx)).1
      simp [h1, hbs]
    rw [htw, hdw]
    have hend : (b :: bs).all (fun r => r.end_ == b.end_) = true := by
      rw [List.all_eq_true]
      intro x hx
      have h1 := (hall x hx).2.1
      simp [h1, hbe]
    rw [if_pos hend]
    have hwnil : walk_regions c [] = some [] := rfl
    rw [hwnil]
    simp [beq_iff_eq]

/-- C3 (amended): in subclonal-exclusion mode, over one chromosome list:
a region at clonal (maximal) prevalence is retained whenever every
earlier region at its start coordinate is itself clonal (the immediately
preceding coordinate block being closed off by a different start); a
coordinate block all of whose regions are sub-clonal retains exactly its
unique abnormal-CN region when it has exactly one, and contributes no
retained region when it has two or more; and a variant is kept by
exclude_variants_in_subclonal_cnvs exactly when its position falls
inside some retained region of its chromosome.  (A clonal region that is
preceded at the same coordinates by a sub-clonal region is swallowed
into that block and can be dropped, so the unconditional retention
stated by the original claim fails.) -/
theorem subclonal_exclusion_spec :
    (∀ (c : ℚ) (pre1 mid post : List CnvRegion) (r : CnvRegion) (out : List CnvRegion),
      (∀ x ∈ pre1.getLast?, ¬ x.start = r.start) →
      (∀ m ∈ mid, m.start = r.start ∧ m.cellular_prevalence = c) →
      r.cellular_prevalence = c →
      walk_regions c (pre1 ++ (mid ++ r :: post)) = some out →
      r ∈ out) ∧
    (∀ (c : ℚ) (s0 e0 : ℤ) (pre blk post : List CnvRegion) (out : List CnvRegion),
      blk ≠ [] →
      (∀ b ∈ blk, b.start = s0 ∧ b.end_ = e0 ∧ ¬ b.cellular_prevalence = c) →
      (∀ x ∈ pre, ¬ x.start = s0) →
      (∀ x ∈ post, ¬ x.start = s0) →
      walk_regions c (pre ++ (blk ++ post)) = some out →
      ((blk.filter (fun b => !is_region_normal_cn b)).length = 1 →
        ∀ b ∈ blk, (b ∈ out ↔ b ∈ blk.filter (fun b => !is_region_normal_cn b))) ∧
      (2 ≤ (blk.filter (fun b => !is_region_normal_cn b)).length →
        ∀ b ∈ blk, b ∉ out)) ∧
    (∀ (cn_regions : List (String × List CnvRegion)) (variants kept : List VariantId),
      exclude_variants_in_subclonal_cnvs cn_regions variants = some kept →
      ∃ good, filter_multiple_abnormal_cn_regions (find_cellularity cn_regions) cn_regions =
          some good ∧
        ∀ v ∈ variants, (v ∈ kept ↔
          ∃ reg ∈ lookup_regions good v.CHROM, reg.start ≤ v.POS ∧ v.POS ≤ reg.end_)) := by
  refine ⟨?_, ?_, ?_⟩
  · intro c pre1 mid post r out hpre hmid hrc hwalk
    have hbnd : ∀ x ∈ pre1.getLast?, ∀ y ∈ (mid ++ r :: post).head?, ¬ x.start = y.start := by
      intro x hx y hy
      have hys : y.start = r.start := by
        rcases mid with _ | ⟨m, ms⟩
        · simp only [List.nil_append, List.head?_cons, Option.mem_def,
            Option.some.injEq] at hy
          rw [← hy]
        · simp only [List.cons_append, List.head?_cons, Option.mem_def,
            Option.some.injEq] at hy
          rw [← hy]
          exact (hmid m (List.mem_cons_self _ _)).1
      rw [hys]
      exact hpre x hx
    rw [walk_regions_append c pre1.length pre1 (mid ++ r :: post) (le_refl _) hbnd] at hwalk
    rcases h1 : walk_regions c pre1 with _ | o1
    · rw [h1] at hwalk
      exact Option.noConfusion hwalk
    · rw [h1] at hwalk
      rw [walk_regions_clonal_run c mid (r :: post)
        (fun m hm => (hmid m hm).2)] at hwalk
      rw [walk_regions_cons_clonal c r post hrc] at hwalk
      rcases h2 : walk_regions c post with _ | o2
      · rw [h2] at hwalk
        exact Option.noConfusion hwalk
      · rw [h2] at hwalk
        simp only [Option.map_some', Option.some_bind, Option.some.injEq] at hwalk
        subst hwalk
        refine List.mem_append_right o1 ?_
        exact List.mem_append_right mid (List.mem_cons_self _ _)
  · intro c s0 e0 pre blk post out hne hall hpre hpost hwalk
    have hbnd1 : ∀ x ∈ pre.getLast?, ∀ y ∈ (blk ++ post).head?, ¬ x.start = y.start := by
      intro x hx y hy
      have hys : y.start = s0 := by
        rcases blk with _ | ⟨b, bs⟩
        · exact absurd rfl hne
        · simp only [List.cons_append, List.head?_cons, Option.mem_def,
            Option.some.injEq] at hy
          rw [← hy]
          exact (hall b (List.mem_cons_self _ _)).1
      rw [hys]
      obtain ⟨hpne, hxl⟩ := List.mem_getLast?_eq_getLast hx
      exact hpre x (by rw [hxl]; exact List.getLast_mem hpne)
    have hbnd2 : ∀ x ∈ blk.getLast?, ∀ y ∈ post.head?, ¬ x.start = y.start := by
      intro x hx y hy
      obtain ⟨hbne, hxl⟩ := List.mem_getLast?_eq_getLast hx
      have hxs : x.start = s0 :=
        (hall x (by rw [hxl]; exact List.getLast_mem hbne)).1
      have hys : y ∈ post := by
        rcases post with _ | ⟨q, qs⟩
        · simp at hy
        · simp only [List.head?_cons, Option.mem_def, Option.some.injEq] at hy
          rw [← hy]
          exact List.mem_cons_self _ _
      rw [hxs]
      intro hcontra
      exact hpost y hys hcontra.symm
    rw [walk_regions_append c pre.length pre (blk ++ post) (le_refl _) hbnd1] at hwalk
    rcases h1 : walk_regions c pre with _ | o1
    · rw [h1] at hwalk
      exact Option.noConfusion hwalk
    · rw [h1] at hwalk
      rw [walk_regions_append c blk.length blk post (le_refl _) hbnd2] at hwalk
      rw [walk_regions_block c s0 e0 blk hne hall] at hwalk
      rcases h2 : walk_regions c post with _ | o2
      · rw [h2] at hwalk
        exact Option.noConfusion hwalk
      · rw [h2] at hwalk
        simp only [Option.map_some', Option.some_bind, Option.some.injEq] at hwalk
        subst hwalk
        have hnotpre : ∀ b ∈ blk, b ∉ o1 := by
          intro b hb hbo
          have hbmem : b ∈ pre := walk_regions_subset c pre.length pre (le_refl _) o1 h1 b hbo
          exact hpre b hbmem (hall b hb).1
        have hnotpost : ∀ b ∈ blk, b ∉ o2 := by
          intro b hb hbo
          have hbmem : b ∈ post :=
            walk_regions_subset c post.length post (le_refl _) o2 h2 b hbo
          exact hpost b hbmem (hall b hb).1
        constructor
        · intro hlen b hb
          rw [if_pos hlen]
          constructor
          · intro hmem
            rcases List.mem_append.mp hmem with hmem1 | hmem2
            · exact absurd hmem1 (hnotpre b hb)
            · rcases List.mem_append.mp hmem2 with hmem3 | hmem4
              · exact hmem3
              · exact absurd hmem4 (hnotpost b hb)
          · intro hmem
            exact List.mem_append_right o1 (List.mem_append_left _ hmem)
        · intro hlen b hb hmem
          have hne1 : (blk.filter (fun b => !is_region_normal_cn b)).length ≠ 1 := by
            omega
          rcases List.mem_append.mp hmem with hmem1 | hmem2
          · exact hnotpre b hb hmem1
          · rcases List.mem_append.mp hmem2 with hmem3 | hmem4
            · rw [if_neg hne1] at hmem3
              exact absurd hmem3 (List.not_mem_nil b)
            · exact hnotpost b hb hmem4
  · intro cn_regions variants kept hexc
    rw [exclude_variants_in_subclonal_cnvs] at hexc
    rcases hf : filter_multiple_abnormal_cn_regions (find_cellularity cn_regions) cn_regions
      with _ | good
    · rw [hf] at hexc
      exact Option.noConfusion hexc
    · rw [hf] at hexc
      simp only [Option.map_some', Option.some.injEq] at hexc
      subst hexc
      refine ⟨good, rfl, ?_⟩
      intro v hv
      rw [filter_variants_outside_regions, List.mem_filter]
      simp only [hv, true_and, List.any_eq_true, region_contains, Bool.and_eq_true,
        decide_eq_true_eq]

lemma demo_cellularity :
    find_cellularity [(("1" : String), [subclonalDemoSub, subclonalDemoClonal])] = 1 := by
  norm_num [find_cellularity, prev_max_step, subclonalDemoSub, subclonalDemoClonal]

lemma demo_walk :
    walk_regions 1 [subclonalDemoSub, subclonalDemoClonal] = some [subclonalDemoSub] := by
  rw [walk_regions_cons_subclonal 1 subclonalDemoSub [subclonalDemoClonal]
    (by norm_num [subclonalDemoSub])]
  have h21 : ((2 : ℤ) == 1) = false := by decide
  norm_num [subclonalDemoSub, subclonalDemoClonal, List.takeWhile, List.dropWhile,
    is_region_normal_cn, List.filter, walk_regions, h21]
  rfl

lemma demo_walk_clonal :
    walk_regions 1 [subclonalDemoClonal] = some [subclonalDemoClonal] := by
  rw [walk_regions_cons_clonal 1 subclonalDemoClonal []
    (by norm_num [subclonalDemoClonal])]
  rfl

lemma demo_filter_single :
    [subclonalDemoSub].filter (fun b => !is_region_normal_cn b) = [subclonalDemoSub] := by
  have h21 : ((2 : ℤ) == 1) = false := by decide
  simp [List.filter, is_region_normal_cn, subclonalDemoSub, h21]

lemma demo_walk_single_sub :
    walk_regions 1 [subclonalDemoSub] = some [subclonalDemoSub] := by
  rw [walk_regions_block 1 1 10 [subclonalDemoSub] (by simp)
    (by intro b hb; rw [List.mem_singleton] at hb; subst hb; norm_num [subclonalDemoSub])]
  rw [demo_filter_single]
  rfl

lemma demo_filter_multiple :
    filter_multiple_abnormal_cn_regions 1
      [(("1" : String), [subclonalDemoSub, subclonalDemoClonal])] =
      some [(("1" : String), [subclonalDemoSub])] := by
  rw [filter_multiple_abnormal_cn_regions]
  rw [show ((("1" : String), [subclonalDemoSub, subclonalDemoClonal]).2) =
    [subclonalDemoSub, subclonalDemoClonal] from rfl, demo_walk]
  rfl

lemma demo_exclude :
    exclude_variants_in_subclonal_cnvs
      [(("1" : String), [subclonalDemoSub, subclonalDemoClonal])]
      [VariantId.mk ("1") 5, VariantId.mk ("1") 50] = some [VariantId.mk ("1") 5] := by
  rw [exclude_variants_in_subclonal_cnvs, demo_cellularity, demo_filter_multiple]
  simp only [Option.map_some', Option.some.injEq]
  simp [filter_variants_outside_regions, lookup_regions, region_contains,
    subclonalDemoSub, List.filter, List.find?]

/-- Counterexample to C3 as stated: with cellularity 1, a chromosome
carrying a sub-clonal abnormal region followed by a clonal normal-CN
region at the same coordinates 1..10 makes the walk gather both regions
into one sub-clonal-headed block and keep only the abnormal one, so the
clonal region is not retained as-is. -/
theorem clonal_region_dropped_in_subclonal_block :
    find_cellularity [(("1" : String), [subclonalDemoSub, subclonalDemoClonal])] = 1 ∧
    subclonalDemoClonal.cellular_prevalence = 1 ∧
    walk_regions 1 [subclonalDemoSub, subclonalDemoClonal] = some [subclonalDemoSub] ∧
    subclonalDemoClonal ∉ [subclonalDemoSub] := by
  refine ⟨demo_cellularity, rfl, demo_walk, ?_⟩
  norm_num [subclonalDemoSub, subclonalDemoClonal]

/-- Witness for C3 (amended): the clonal-retention conjunct at a
one-region chromosome, the unique-abnormal-block conjunct at a
one-region sub-clonal block, and the variant-exclusion conjunct at the
two-region demo chromosome with two variants. -/
theorem subclonal_exclusion_spec_witness :
    walk_regions 1 [subclonalDemoClonal] = some [subclonalDemoClonal] ∧
    subclonalDemoClonal ∈ [subclonalDemoClonal] ∧
    walk_regions 1 [subclonalDemoSub] = some [subclonalDemoSub] ∧
    (([subclonalDemoSub].filter (fun b => !is_region_normal_cn b)).length = 1 ∧
      (subclonalDemoSub ∈ [subclonalDemoSub] ↔
        subclonalDemoSub ∈ [subclonalDemoSub].filter (fun b => !is_region_normal_cn b))) ∧
    (exclude_variants_in_subclonal_cnvs
        [(("1" : String), [subclonalDemoSub, subclonalDemoClonal])]
        [VariantId.mk ("1") 5, VariantId.mk ("1") 50] = some [VariantId.mk ("1") 5] ∧
      ∃ good, filter_multiple_abnormal_cn_regions
          (find_cellularity [(("1" : String), [subclonalDemoSub, subclonalDemoClonal])])
          [(("1" : String), [subclonalDemoSub, subclonalDemoClonal])] = some good ∧
        ∀ v ∈ [VariantId.mk ("1") 5, VariantId.mk ("1") 50],
          (v ∈ [VariantId.mk ("1") 5] ↔
            ∃ reg ∈ lookup_regions good v.CHROM, reg.start ≤ v.POS ∧ v.POS ≤ reg.end_)) := by
  have hlen : ([subclonalDemoSub].filter (fun b => !is_region_normal_cn b)).length = 1 := by
    rw [demo_filter_single]
    rfl
  have hall : ∀ b ∈ [subclonalDemoSub],
      b.start = 1 ∧ b.end_ = 10 ∧ ¬ b.cellular_prevalence = 1 := by
    intro b hb
    rw [List.mem_singleton] at hb
    subst hb
    norm_num [subclonalDemoSub]
  refine ⟨demo_walk_clonal, ?_, demo_walk_single_sub, ⟨hlen, ?_⟩, demo_exclude, ?_⟩
  · exact subclonal_exclusion_spec.1 1 [] [] [] subclonalDemoClonal [subclonalDemoClonal]
      (by simp) (by simp) rfl demo_walk_clonal
  · exact (subclonal_exclusion_spec.2.1 1 1 10 [] [subclonalDemoSub] [] [subclonalDemoSub]
      (by simp) hall (by simp) (by simp) demo_walk_single_sub).1 hlen subclonalDemoSub
      (List.mem_singleton_self _)
  · exact subclonal_exclusion_spec.2.2
      [(("1" : String), [subclonalDemoSub, subclonalDemoClonal])]
      [VariantId.mk ("1") 5, VariantId.mk ("1") 50] [VariantId.mk ("1") 5] demo_exclude

end PhyloWGS
